import Mathlib

/-!
Verification of the configuration front-end of `cuda_multimulti_DDM`
(`src/main.cpp` together with the diagnostics helper `src/debug.cpp`).

The embedding models:
* `getopt`-style option parsing over the optstring
  `"ho:N:s:x:y:Q:T:S:E:If:W::vZt:C:MG:F:BAn:"` (flag clustering, required
  arguments taken from the rest of the element or from the next element,
  the optional argument of `-W` taken only when attached, GNU operand
  permutation reflected by collecting operands and testing them at the end),
* the process-global `DDMparams` record (zero-initialized, so the
  uninitialized `frame_count` field starts at `0`),
* `conditionAssert(_, msg, true)` as a fatal outcome carrying `msg`,
* the two-pass numeric series loader built from `std::istream` formatted
  extraction (`>> int` / `>> float`), modelled character by character,
* the final `runDDM` invocation as a record of the 27 arguments passed.

Machine `int` is modelled as unbounded `Int` (overflow is not exercised) and
C `float`/`double` values are modelled as exact rationals `ℚ`.
-/

namespace DDM

/-- C-locale `isspace`, the whitespace class skipped by formatted extraction. -/
def isWs (c : Char) : Bool :=
  c = ' ' || c = '\t' || c = '\n' || c = '\r' || c = '\x0b' || c = '\x0c'

/-- Value of a digit run, most significant digit first. -/
def digitsToNat (ds : List Char) : Nat :=
  ds.foldl (fun a c => 10 * a + (c.toNat - 48)) 0

/-- Sign application for `>> int`: a leading `'-'` negates. -/
def intSign (c : Char) (n : Nat) : Int :=
  if c = '-' then -(n : Int) else (n : Int)

/-- Digit-run stage of `>> int` over the characters `ds0` after the optional
sign: fails when no digit is present. -/
def readDigitsInt (c : Char) (ds0 : List Char) : Option (Int × List Char) :=
  if ds0.takeWhile Char.isDigit = [] then none
  else some (intSign c (digitsToNat (ds0.takeWhile Char.isDigit)),
             ds0.dropWhile Char.isDigit)

/-- `>> int` after whitespace skipping, on first character `c` and rest. -/
def readIntBody (c : Char) (rest : List Char) : Option (Int × List Char) :=
  readDigitsInt c (if c = '-' || c = '+' then rest else c :: rest)

/-- `std::istream >> int` on the remaining characters: skip whitespace, then an
optional sign and a nonempty digit run.  Returns the value and the unconsumed
characters, or `none` when extraction fails. -/
def readInt (cs : List Char) : Option (Int × List Char) :=
  match cs.dropWhile isWs with
  | [] => none
  | c :: rest => readIntBody c rest

/-- Exponent digit run: an exponent marker whose digits are missing fails the
whole float extraction. -/
def readExpDigits (base : ℚ) (eneg : Bool) (after : List Char) :
    Option (ℚ × List Char) :=
  if after.takeWhile Char.isDigit = [] then none
  else some ((if eneg then base / (10 : ℚ) ^ digitsToNat (after.takeWhile Char.isDigit)
              else base * (10 : ℚ) ^ digitsToNat (after.takeWhile Char.isDigit)),
             after.dropWhile Char.isDigit)

/-- Exponent part of `std::istream >> float`: optional sign then a digit run. -/
def readExp (base : ℚ) : List Char → Option (ℚ × List Char)
  | [] => readExpDigits base false []
  | c :: r2 =>
    if c = '-' then readExpDigits base true r2
    else if c = '+' then readExpDigits base false r2
    else readExpDigits base false (c :: r2)

/-- Mantissa value: integer digits `ip`, fraction digits `fp`, sign `neg`. -/
def mantVal (neg : Bool) (ip fp : List Char) : ℚ :=
  let m : ℚ := (digitsToNat ip : ℚ) + (digitsToNat fp : ℚ) / (10 : ℚ) ^ fp.length
  if neg then -m else m

/-- `>> float` after the mantissa digits: fails when no digit was seen at all,
otherwise handles an optional exponent. -/
def readAfterMant (neg : Bool) (ip fp : List Char) : List Char → Option (ℚ × List Char)
  | [] => if ip = [] ∧ fp = [] then none else some (mantVal neg ip fp, [])
  | c :: r3 =>
    if ip = [] ∧ fp = [] then none
    else if c = 'e' || c = 'E' then readExp (mantVal neg ip fp) r3
    else some (mantVal neg ip fp, c :: r3)

/-- Fraction stage of `>> float`: a decimal point may follow the integer
digits. -/
def readFrac (neg : Bool) (ip : List Char) : List Char → Option (ℚ × List Char)
  | [] => readAfterMant neg ip [] []
  | c :: rd =>
    if c = '.' then
      readAfterMant neg ip (rd.takeWhile Char.isDigit) (rd.dropWhile Char.isDigit)
    else readAfterMant neg ip [] (c :: rd)

/-- Mantissa stage of `>> float` over the characters after the optional
sign. -/
def readMant (neg : Bool) (body : List Char) : Option (ℚ × List Char) :=
  readFrac neg (body.takeWhile Char.isDigit) (body.dropWhile Char.isDigit)

/-- `>> float` after whitespace skipping. -/
def readFloatBody (c : Char) (rest : List Char) : Option (ℚ × List Char) :=
  readMant (c = '-') (if c = '-' || c = '+' then rest else c :: rest)

/-- `std::istream >> float`: skip whitespace, optional sign, integer digits,
optional fraction after a decimal point, optional exponent.  The value is kept
exactly as a rational. -/
def readFloat (cs : List Char) : Option (ℚ × List Char) :=
  match cs.dropWhile isWs with
  | [] => none
  | c :: rest => readFloatBody c rest

/-- C `atoi`: leading whitespace, optional sign, digit run; `0` when nothing
parses.  (Overflow is undefined behaviour in C and is not modelled.) -/
def atoi (s : String) : Int :=
  match readInt s.data with
  | some (v, _) => v
  | none => 0

/-- C `atof` (`strtod`): like `readFloat`, except that an ill-formed exponent
part is simply left unconsumed instead of failing the conversion, and a failed
conversion yields `0`. -/
def atofQ (s : String) : ℚ :=
  match s.data.dropWhile isWs with
  | [] => 0
  | c :: rest =>
    let neg := c = '-'
    let body := if c = '-' || c = '+' then rest else c :: rest
    let ip := body.takeWhile Char.isDigit
    let r1 := body.dropWhile Char.isDigit
    let (fp, r2) :=
      match r1 with
      | '.' :: r => (r.takeWhile Char.isDigit, r.dropWhile Char.isDigit)
      | _ => ([], r1)
    if ip.isEmpty && fp.isEmpty then 0
    else
      let mant : ℚ := (digitsToNat ip : ℚ) + (digitsToNat fp : ℚ) / (10 : ℚ) ^ fp.length
      let base := if neg then -mant else mant
      match r2 with
      | 'e' :: r3 => (match readExp base r3 with | some (v, _) => v | none => base)
      | 'E' :: r3 => (match readExp base r3 with | some (v, _) => v | none => base)
      | _ => base

/-- One `while (stream >> tmp) { store }` fill loop, fuelled: successive
extractions until the first failure, collecting the extracted values. -/
def extractAll (read : List Char → Option (α × List Char)) :
    Nat → List Char → List α
  | 0, _ => []
  | fuel + 1, cs =>
    match read cs with
    | none => []
    | some (v, rest) => v :: extractAll read fuel rest

/-- One `while (stream >> tmp) { count++ }` counting loop, fuelled. -/
def countAll (read : List Char → Option (α × List Char)) :
    Nat → List Char → Nat
  | 0, _ => 0
  | fuel + 1, cs =>
    match read cs with
    | none => 0
    | some (_, rest) => countAll read fuel rest + 1

/-- Counting pass over an integer series file (`-T`, `-S`, `-E`). -/
def countInts (cs : List Char) : Nat := countAll readInt (cs.length + 1) cs

/-- Fill pass over an integer series file, after `clear()` + `seekg(0)`
restored the stream to its full content. -/
def fillInts (cs : List Char) : List Int := extractAll readInt (cs.length + 1) cs

/-- Counting pass over the float series file (`-Q`). -/
def countFloats (cs : List Char) : Nat := countAll readFloat (cs.length + 1) cs

/-- Fill pass over the float series file. -/
def fillFloats (cs : List Char) : List ℚ := extractAll readFloat (cs.length + 1) cs

/-! ## The configuration record and the option parser -/

/-- `struct DDMparams` from `src/main.cpp`.  The record is a process global,
hence zero-initialized: the otherwise uninitialized `frame_count` starts
at `0`. -/
structure DDMparams where
  file_in : String := ""
  file_out : String := ""
  q_file_name : String := ""
  t_file_name : String := ""
  s_file_name : String := ""
  e_file_name : String := ""
  frame_count : Int := 0
  frame_offset : Int := 0
  x_off : Int := 0
  y_off : Int := 0
  chunk_length : Int := 30
  rolling_purge : Int := 0
  use_webcam : Bool := false
  webcam_idx : Int := 0
  use_movie_file : Bool := false
  use_index_fps : Bool := false
  use_explicit_fps : Bool := false
  explicit_fps : ℚ := 1
  multi_stream : Bool := true
  q_tolerance : ℚ := 6 / 5
  benchmark_mode : Bool := false
  use_episodes : Bool := false
  enable_angle_analysis : Bool := false
  angle_count : Int := 8
deriving DecidableEq

/-- Parser state: the configuration record, the `Verbose` global of
`debug.cpp`, and the local `input_specified` flag of `main`. -/
structure PState where
  params : DDMparams := {}
  verboseOn : Bool := false
  input_specified : Bool := false
deriving DecidableEq

def initPState : PState := {}

/-- Diagnostic strings passed to `conditionAssert(_, msg, true)`. -/
def msgConflict : String := "Cannot use both in-filepath and web-cam option at same time."

def msgUnexpected : String := "An unexpected option was found."

def msgNoInput : String := "Must specify input."

def msgNoQ : String := "cannot open lambda-file."

def msgNoT : String := "cannot open tau-file"

def msgNoS : String := "cannot open scales-file."

def msgNoE : String := "cannot open episode-file."

/-- Result of the `for (;;) { switch (getopt(...)) ... }` loop. -/
inductive LoopRes where
  /-- `case '?'` / `case 'h'`: `printHelp(); return -1` (also the path taken
  when a required option argument is missing). -/
  | helpExit
  /-- `conditionAssert(false, msg, true)` fired inside the loop:
  `[Error] msg`, `exit(EXIT_FAILURE)`. -/
  | fatal (msg : String)
  /-- `getopt` returned `-1`: loop left with final state and the non-option
  operands (GNU permutation moves them behind the options). -/
  | ok (st : PState) (ops : List String)
deriving DecidableEq

/-- Result of handling a single option character. -/
inductive StepRes where
  | stop (r : LoopRes)
  | cont (st : PState)
deriving DecidableEq

/-- Argument discipline of an option character in the optstring
`"ho:N:s:x:y:Q:T:S:E:If:W::vZt:C:MG:F:BAn:"`. -/
inductive ArgSpec where
  | noArg
  | reqArg
  | optArg
deriving DecidableEq

/-- Lookup in the optstring. -/
def optLookup (c : Char) : Option ArgSpec :=
  if c = 'h' || c = 'I' || c = 'v' || c = 'Z' || c = 'M' || c = 'B' || c = 'A' then
    some .noArg
  else if c = 'o' || c = 'N' || c = 's' || c = 'x' || c = 'y' || c = 'Q' || c = 'T' ||
      c = 'S' || c = 'E' || c = 'f' || c = 't' || c = 'C' || c = 'G' || c = 'F' ||
      c = 'n' then
    some .reqArg
  else if c = 'W' then some .optArg
  else none

/-! One small state transformer per `case` of the `switch` in `main`. -/

def setFileOut (v : String) (st : PState) : PState :=
  { st with params := { st.params with file_out := v } }

def setFrameCount (v : String) (st : PState) : PState :=
  { st with params := { st.params with frame_count := atoi v } }

def setXOff (v : String) (st : PState) : PState :=
  { st with params := { st.params with x_off := atoi v } }

def setYOff (v : String) (st : PState) : PState :=
  { st with params := { st.params with y_off := atoi v } }

def setQFile (v : String) (st : PState) : PState :=
  { st with params := { st.params with q_file_name := v } }

def setTFile (v : String) (st : PState) : PState :=
  { st with params := { st.params with t_file_name := v } }

def setSFile (v : String) (st : PState) : PState :=
  { st with params := { st.params with s_file_name := v } }

def setEFile (v : String) (st : PState) : PState :=
  { st with params := { st.params with e_file_name := v } }

def setIndexFps (st : PState) : PState :=
  { st with params := { st.params with use_index_fps := true } }

def setFrameOffset (v : String) (st : PState) : PState :=
  { st with params := { st.params with frame_offset := atoi v } }

/-- `case 'f'` body after the assertion: store the path, set the
discriminant. -/
def setFileIn (v : String) (st : PState) : PState :=
  { st with params := { st.params with file_in := v }, input_specified := true }

/-- `case 'W'` body after the assertion: webcam mode, optional index, set the
discriminant. -/
def setWebcam (arg : Option String) (st : PState) : PState :=
  { st with
    params := { st.params with
      use_webcam := true,
      webcam_idx := match arg with
        | some s => atoi s
        | none => st.params.webcam_idx },
    input_specified := true }

/-- `case 'B'` body: benchmark mode, set the discriminant, no assertion. -/
def setBenchmark (st : PState) : PState :=
  { st with
    params := { st.params with benchmark_mode := true },
    input_specified := true }

def setVerboseOn (st : PState) : PState := { st with verboseOn := true }

def setTolerance (v : String) (st : PState) : PState :=
  { st with params := { st.params with q_tolerance := 1 + (atoi v : ℚ) / 100 } }

def setChunkLength (v : String) (st : PState) : PState :=
  { st with params := { st.params with chunk_length := atoi v } }

def setMovieFile (st : PState) : PState :=
  { st with params := { st.params with use_movie_file := true } }

def setRollingPurge (v : String) (st : PState) : PState :=
  { st with params := { st.params with rolling_purge := atoi v } }

def setExplicitFps (v : String) (st : PState) : PState :=
  { st with params := { st.params with
    use_explicit_fps := true, explicit_fps := atofQ v } }

def setAngleAnalysis (st : PState) : PState :=
  { st with params := { st.params with enable_angle_analysis := true } }

def setAngleCount (v : String) (st : PState) : PState :=
  { st with params := { st.params with angle_count := atoi v } }

def setMultiOff (st : PState) : PState :=
  { st with params := { st.params with multi_stream := false } }

/-- The `switch` body of `main` for one recognized option character.
`arg` is `optarg` (`none` only possible for the optional-argument `-W`). -/
def applyOpt (c : Char) (arg : Option String) (st : PState) : StepRes :=
  if c = 'h' then .stop .helpExit
  else if c = 'o' then .cont (setFileOut (arg.getD "") st)
  else if c = 'N' then .cont (setFrameCount (arg.getD "") st)
  else if c = 'x' then .cont (setXOff (arg.getD "") st)
  else if c = 'y' then .cont (setYOff (arg.getD "") st)
  else if c = 'Q' then .cont (setQFile (arg.getD "") st)
  else if c = 'T' then .cont (setTFile (arg.getD "") st)
  else if c = 'S' then .cont (setSFile (arg.getD "") st)
  else if c = 'E' then .cont (setEFile (arg.getD "") st)
  else if c = 'I' then .cont (setIndexFps st)
  else if c = 's' then .cont (setFrameOffset (arg.getD "") st)
  else if c = 'f' then
    if st.input_specified then .stop (.fatal msgConflict)
    else .cont (setFileIn (arg.getD "") st)
  else if c = 'W' then
    if st.input_specified then .stop (.fatal msgConflict)
    else .cont (setWebcam arg st)
  else if c = 'B' then .cont (setBenchmark st)
  else if c = 'v' then .cont (setVerboseOn st)
  else if c = 't' then .cont (setTolerance (arg.getD "") st)
  else if c = 'C' then .cont (setChunkLength (arg.getD "") st)
  else if c = 'M' then .cont (setMovieFile st)
  else if c = 'G' then .cont (setRollingPurge (arg.getD "") st)
  else if c = 'F' then .cont (setExplicitFps (arg.getD "") st)
  else if c = 'A' then .cont (setAngleAnalysis st)
  else if c = 'n' then .cont (setAngleCount (arg.getD "") st)
  else if c = 'Z' then .cont (setMultiOff st)
  else .cont st

/-- Result of scanning the remaining characters of one `-abc` element. -/
inductive ElemRes where
  | stop (r : LoopRes)
  /-- Element exhausted, scanning continues with the next `argv` element. -/
  | done (st : PState)
  /-- A required-argument option ended the element; its argument is the next
  `argv` element. -/
  | needArg (c : Char) (st : PState)
deriving DecidableEq

/-- Scan the option characters of a single `argv` element (after its `-`). -/
def parseElem : List Char → PState → ElemRes
  | [], st => .done st
  | c :: rest, st =>
    match optLookup c with
    | none => .stop .helpExit
    | some .noArg =>
      match applyOpt c none st with
      | .stop r => .stop r
      | .cont st' => parseElem rest st'
    | some .reqArg =>
      if rest.isEmpty then .needArg c st
      else
        match applyOpt c (some (String.mk rest)) st with
        | .stop r => .stop r
        | .cont st' => .done st'
    | some .optArg =>
      match applyOpt c (if rest.isEmpty then none else some (String.mk rest)) st with
      | .stop r => .stop r
      | .cont st' => .done st'

/-- Classification of one `argv` element by `getopt`. -/
inductive ElemStep where
  /-- `--`: option scanning stops, everything after is an operand. -/
  | stopScan
  /-- Early exit while scanning the element. -/
  | stop (r : LoopRes)
  /-- Option element fully handled. -/
  | done (st : PState)
  /-- Required-argument option at the end of the element: the argument is the
  next `argv` element. -/
  | needArg (c : Char) (st : PState)
  /-- Non-option element: an operand (GNU `getopt` permutes it behind the
  options). -/
  | operand
deriving DecidableEq

/-- Classify one `argv` element: `--`, an option element (`-` followed by at
least one character), or an operand. -/
def elemStep (e : String) (st : PState) : ElemStep :=
  if e = "--" then .stopScan
  else
    match e.data with
    | c1 :: c2 :: cs2 =>
      if c1 = '-' then
        match parseElem (c2 :: cs2) st with
        | .stop r => .stop r
        | .done st' => .done st'
        | .needArg c st' => .needArg c st'
      else .operand
    | _ => .operand

/-- The full `getopt` loop over the argument vector (without `argv[0]`).
Non-option elements are collected as operands, matching GNU permutation;
`--` stops option scanning. -/
def parseLoop : List String → PState → List String → LoopRes
  | [], st, ops => .ok st ops
  | e :: rest, st, ops =>
    match elemStep e st with
    | .stopScan => .ok st (ops ++ rest)
    | .stop r => r
    | .done st' => parseLoop rest st' ops
    | .operand => parseLoop rest st (ops ++ [e])
    | .needArg c st' =>
      match rest with
      | [] => .helpExit
      | a :: rest2 =>
        match applyOpt c (some a) st' with
        | .stop r => r
        | .cont st'' => parseLoop rest2 st'' ops

/-- The 27 arguments of the single `runDDM(...)` call, in source order. -/
structure RunDDMArgs where
  file_in : String
  file_out : String
  tau_arr : List Int
  tau_count : Nat
  lambda_arr : List ℚ
  lambda_count : Nat
  scale_arr : List Int
  scale_count : Nat
  x_off : Int
  y_off : Int
  episode_vector : List Int
  episode_count : Nat
  frame_count : Int
  frame_offset : Int
  chunk_frame_count : Int
  multistream : Bool
  use_webcam : Bool
  webcam_idx : Int
  q_tolerance : ℚ
  use_movie_file : Bool
  use_index_fps : Bool
  use_explicit_fps : Bool
  explicit_fps : ℚ
  dump_accum_after : Int
  benchmark_mode : Bool
  enable_angle_analysis : Bool
  angle_count : Int
deriving DecidableEq

/-- Observable outcome of `main`. -/
inductive MainOutcome where
  /-- `printHelp(); return -1`. -/
  | exitHelp
  /-- `conditionAssert(false, msg, true)`: `[Error] msg`, exit `EXIT_FAILURE`;
  `helpShown` records whether `printHelp()` ran first. -/
  | exitFatal (helpShown : Bool) (msg : String)
  /-- `runDDM` invoked (exactly once) with these arguments; `main` then
  returns `0`. -/
  | run (args : RunDDMArgs)
deriving DecidableEq

/-- The `runDDM(...)` argument assembly from the parsed state and the four
file contents: each series is counted and then filled by the two-pass
loader. -/
def mkRunArgs (st : PState) (qc tc sc ec : String) : RunDDMArgs :=
  { file_in := st.params.file_in
    file_out := st.params.file_out
    tau_arr := fillInts tc.data
    tau_count := countInts tc.data
    lambda_arr := fillFloats qc.data
    lambda_count := countFloats qc.data
    scale_arr := fillInts sc.data
    scale_count := countInts sc.data
    x_off := st.params.x_off
    y_off := st.params.y_off
    episode_vector := fillInts ec.data
    episode_count := countInts ec.data
    frame_count := st.params.frame_count
    frame_offset := st.params.frame_offset
    chunk_frame_count := st.params.chunk_length
    multistream := st.params.multi_stream
    use_webcam := st.params.use_webcam
    webcam_idx := st.params.webcam_idx
    q_tolerance := st.params.q_tolerance
    use_movie_file := st.params.use_movie_file
    use_index_fps := st.params.use_index_fps
    use_explicit_fps := st.params.use_explicit_fps
    explicit_fps := st.params.explicit_fps
    dump_accum_after := st.params.rolling_purge
    benchmark_mode := st.params.benchmark_mode
    enable_angle_analysis := st.params.enable_angle_analysis
    angle_count := st.params.angle_count }

/-- The four `ifstream` opens with their `conditionAssert`s (in source order
`-Q`, `-T`, `-S`, `-E`), then the loads and the single `runDDM` call. -/
def loadAndRun (fs : String → Option String) (st : PState) : MainOutcome :=
  match fs st.params.q_file_name with
  | none => .exitFatal false msgNoQ
  | some qc =>
    match fs st.params.t_file_name with
    | none => .exitFatal false msgNoT
    | some tc =>
      match fs st.params.s_file_name with
      | none => .exitFatal false msgNoS
      | some sc =>
        match fs st.params.e_file_name with
        | none => .exitFatal false msgNoE
        | some ec => .run (mkRunArgs st qc tc sc ec)

/-- `main` from `src/main.cpp`: option parsing, trailing-argument check,
input-source check, the four file opens, the two-pass loads and the `runDDM`
call.  `argv` is the argument vector after the program name and `fs` maps a
path to the content of an openable file. -/
def mainModel (argv : List String) (fs : String → Option String) : MainOutcome :=
  match parseLoop argv initPState [] with
  | .helpExit => .exitHelp
  | .fatal m => .exitFatal false m
  | .ok st ops =>
    if !ops.isEmpty then .exitFatal true msgUnexpected
    else if !st.input_specified then .exitFatal false msgNoInput
    else loadAndRun fs st

/-! ## List helpers -/

theorem length_dropWhile_le (p : α → Bool) (l : List α) :
    (l.dropWhile p).length ≤ l.length := by
  induction l with
  | nil => simp
  | cons a l ih =>
    by_cases h : p a
    · rw [List.dropWhile_cons_of_pos h]; exact Nat.le_succ_of_le ih
    · rw [List.dropWhile_cons_of_neg h]

theorem length_dropWhile_lt {p : α → Bool} {l : List α}
    (h : l.takeWhile p ≠ []) : (l.dropWhile p).length < l.length := by
  cases l with
  | nil => simp at h
  | cons a l =>
    by_cases hp : p a
    · rw [List.dropWhile_cons_of_pos hp]
      exact Nat.lt_succ_of_le (length_dropWhile_le p l)
    · rw [List.takeWhile_cons_of_neg hp] at h; simp at h

theorem dropWhile_eq_self_of_takeWhile_nil {p : α → Bool} {l : List α}
    (h : l.takeWhile p = []) : l.dropWhile p = l := by
  cases l with
  | nil => simp
  | cons a l =>
    by_cases hp : p a
    · rw [List.takeWhile_cons_of_pos hp] at h; simp at h
    · rw [List.dropWhile_cons_of_neg hp]

/-- `takeWhile` over a fully satisfying prefix followed by a failing (or empty)
remainder returns exactly the prefix. -/
theorem takeWhile_append_stop {p : α → Bool} {l r : List α}
    (hl : ∀ a ∈ l, p a) (hr : r = [] ∨ ∃ c cs, r = c :: cs ∧ p c = false) :
    (l ++ r).takeWhile p = l := by
  rw [List.takeWhile_append_of_pos hl]
  rcases hr with rfl | ⟨c, cs, rfl, hc⟩
  · simp
  · rw [List.takeWhile_cons_of_neg (by simp [hc])]; simp

/-- `dropWhile` companion of `takeWhile_append_stop`. -/
theorem dropWhile_append_stop {p : α → Bool} {l r : List α}
    (hl : ∀ a ∈ l, p a) (hr : r = [] ∨ ∃ c cs, r = c :: cs ∧ p c = false) :
    (l ++ r).dropWhile p = r := by
  rw [List.dropWhile_append_of_pos hl]
  rcases hr with rfl | ⟨c, cs, rfl, hc⟩
  · simp
  · rw [List.dropWhile_cons_of_neg (by simp [hc])]

/-! ## Progress of formatted extraction -/

theorem readDigitsInt_shrink {c : Char} {ds0 : List Char} {v : Int} {r : List Char}
    (h : readDigitsInt c ds0 = some (v, r)) : r.length < ds0.length := by
  unfold readDigitsInt at h
  split_ifs at h with hne
  injection h with h'
  injection h' with h1 h2
  subst h2
  exact length_dropWhile_lt hne

theorem readIntBody_shrink {c : Char} {rest : List Char} {v : Int} {r : List Char}
    (h : readIntBody c rest = some (v, r)) : r.length < (c :: rest).length := by
  unfold readIntBody at h
  split_ifs at h with hs
  · exact Nat.lt_succ_of_lt (readDigitsInt_shrink h)
  · exact readDigitsInt_shrink h

theorem readInt_shrink {cs : List Char} {v : Int} {r : List Char}
    (h : readInt cs = some (v, r)) : r.length < cs.length := by
  unfold readInt at h
  cases hdw : cs.dropWhile isWs with
  | nil => rw [hdw] at h; exact absurd h (by simp)
  | cons c rest =>
    rw [hdw] at h
    calc r.length < (c :: rest).length := readIntBody_shrink h
    _ ≤ cs.length := by rw [← hdw]; exact length_dropWhile_le isWs cs

theorem readExpDigits_shrink {base : ℚ} {eneg : Bool} {after : List Char}
    {v : ℚ} {r : List Char} (h : readExpDigits base eneg after = some (v, r)) :
    r.length < after.length := by
  unfold readExpDigits at h
  split_ifs at h with hne heneg <;>
    (injection h with h'; injection h' with h1 h2; subst h2;
     exact length_dropWhile_lt hne)

theorem readExp_shrink {base : ℚ} {rr : List Char} {v : ℚ} {r : List Char}
    (h : readExp base rr = some (v, r)) : r.length ≤ rr.length := by
  cases rr with
  | nil => simp [readExp, readExpDigits] at h
  | cons c r2 =>
    simp only [readExp] at h
    split_ifs at h with h1 h2
    · exact Nat.le_of_lt (Nat.lt_succ_of_lt (readExpDigits_shrink h))
    · exact Nat.le_of_lt (Nat.lt_succ_of_lt (readExpDigits_shrink h))
    · exact Nat.le_of_lt (readExpDigits_shrink h)

theorem readAfterMant_shrink {neg : Bool} {ip fp r2 : List Char} {v : ℚ}
    {r : List Char} (h : readAfterMant neg ip fp r2 = some (v, r)) :
    r.length ≤ r2.length ∧ ¬(ip = [] ∧ fp = []) := by
  cases r2 with
  | nil =>
    simp only [readAfterMant] at h
    split_ifs at h with hemp
    refine ⟨?_, hemp⟩
    injection h with h'
    injection h' with h1 h2
    subst h2
    exact Nat.le_refl _
  | cons c r3 =>
    simp only [readAfterMant] at h
    split_ifs at h with hemp hc
    · refine ⟨?_, hemp⟩
      exact Nat.le_of_lt (Nat.lt_of_le_of_lt (readExp_shrink h) (Nat.lt_succ_self _))
    · refine ⟨?_, hemp⟩
      injection h with h'
      injection h' with h1 h2
      subst h2
      exact Nat.le_refl _

theorem readMant_shrink {neg : Bool} {body : List Char} {v : ℚ} {r : List Char}
    (h : readMant neg body = some (v, r)) : r.length < body.length := by
  unfold readMant at h
  cases hr1 : body.dropWhile Char.isDigit with
  | nil =>
    rw [hr1] at h
    simp only [readFrac] at h
    obtain ⟨hle, hne⟩ := readAfterMant_shrink h
    have hip : body.takeWhile Char.isDigit ≠ [] := fun hcon => hne ⟨hcon, rfl⟩
    have hbody : body ≠ [] := by
      intro hb; subst hb; simp at hip
    have := List.length_pos.mpr hbody
    simp only [List.length_nil] at hle
    omega
  | cons d rd =>
    rw [hr1] at h
    simp only [readFrac] at h
    have hlen : rd.length + 1 = (body.dropWhile Char.isDigit).length := by
      rw [hr1]; simp
    have hlenle := length_dropWhile_le Char.isDigit body
    split_ifs at h with hd
    · obtain ⟨hle, hne⟩ := readAfterMant_shrink h
      by_cases hip : body.takeWhile Char.isDigit = []
      · have hfp : rd.takeWhile Char.isDigit ≠ [] := fun hcon => hne ⟨hip, hcon⟩
        have h2 := length_dropWhile_lt hfp
        have h3 : body.dropWhile Char.isDigit = body :=
          dropWhile_eq_self_of_takeWhile_nil hip
        rw [h3] at hlen
        omega
      · have h2 : (body.dropWhile Char.isDigit).length < body.length :=
          length_dropWhile_lt hip
        have h3 := length_dropWhile_le Char.isDigit rd
        omega
    · obtain ⟨hle, hne⟩ := readAfterMant_shrink h
      have hip : body.takeWhile Char.isDigit ≠ [] := fun hcon => hne ⟨hcon, rfl⟩
      have h2 : (body.dropWhile Char.isDigit).length < body.length :=
        length_dropWhile_lt hip
      simp only [List.length_cons] at hle
      omega

theorem readFloatBody_shrink {c : Char} {rest : List Char} {v : ℚ} {r : List Char}
    (h : readFloatBody c rest = some (v, r)) : r.length < (c :: rest).length := by
  unfold readFloatBody at h
  split_ifs at h with hs
  · exact Nat.lt_succ_of_lt (readMant_shrink h)
  · exact readMant_shrink h

theorem readFloat_shrink {cs : List Char} {v : ℚ} {r : List Char}
    (h : readFloat cs = some (v, r)) : r.length < cs.length := by
  unfold readFloat at h
  cases hdw : cs.dropWhile isWs with
  | nil => rw [hdw] at h; exact absurd h (by simp)
  | cons c rest =>
    rw [hdw] at h
    calc r.length < (c :: rest).length := readFloatBody_shrink h
    _ ≤ cs.length := by rw [← hdw]; exact length_dropWhile_le isWs cs

/-! ## Fuel irrelevance and the two passes -/

section ExtractionLoops

variable {α : Type} {read : List Char → Option (α × List Char)}

theorem countAll_eq_length (read : List Char → Option (α × List Char)) :
    ∀ (fuel : Nat) (cs : List Char),
      countAll read fuel cs = (extractAll read fuel cs).length := by
  intro fuel
  induction fuel with
  | zero => intro cs; rfl
  | succ n ih =>
    intro cs
    simp only [countAll, extractAll]
    rcases hr : read cs with _ | ⟨v, r⟩
    · rfl
    · simp [ih r]

theorem extractAll_nil
    (hshrink : ∀ cs v r, read cs = some (v, r) → r.length < cs.length) :
    ∀ fuel : Nat, extractAll read fuel [] = [] := by
  intro fuel
  cases fuel with
  | zero => rfl
  | succ n =>
    have hnone : read [] = none := by
      rcases hr : read [] with _ | ⟨v, r⟩
      · rfl
      · have := hshrink [] v r hr
        simp at this
    simp [extractAll, hnone]

theorem extractAll_congr
    (hshrink : ∀ cs v r, read cs = some (v, r) → r.length < cs.length) :
    ∀ (f₁ f₂ : Nat) (cs : List Char), cs.length ≤ f₁ → cs.length ≤ f₂ →
      extractAll read f₁ cs = extractAll read f₂ cs := by
  intro f₁
  induction f₁ with
  | zero =>
    intro f₂ cs h1 h2
    have : cs = [] := List.length_eq_zero.mp (Nat.le_zero.mp h1)
    subst this
    rw [extractAll_nil hshrink, extractAll_nil hshrink]
  | succ n ih =>
    intro f₂ cs h1 h2
    cases f₂ with
    | zero =>
      have : cs = [] := List.length_eq_zero.mp (Nat.le_zero.mp h2)
      subst this
      rw [extractAll_nil hshrink, extractAll_nil hshrink]
    | succ m =>
      rcases hr : read cs with _ | ⟨v, r⟩
      · simp [extractAll, hr]
      · have hlt := hshrink cs v r hr
        simp only [extractAll, hr]
        rw [ih m r (by omega) (by omega)]

/-- Unfolding one successful extraction in a fuelled pass started with the
canonical fuel. -/
theorem extractAll_step
    (hshrink : ∀ cs v r, read cs = some (v, r) → r.length < cs.length)
    {cs : List Char} {v : α} {r : List Char} (h : read cs = some (v, r)) :
    extractAll read (cs.length + 1) cs = v :: extractAll read (r.length + 1) r := by
  have hlt := hshrink cs v r h
  simp only [extractAll, h]
  congr 1
  exact extractAll_congr hshrink cs.length (r.length + 1) r (by omega) (by omega)

end ExtractionLoops

/-- `readInt` consumes at least one character on success (quantified form). -/
theorem readInt_shrinkF :
    ∀ (cs : List Char) (v : Int) (r : List Char),
      readInt cs = some (v, r) → r.length < cs.length :=
  fun _ _ _ h => readInt_shrink h

/-- `readFloat` consumes at least one character on success (quantified form). -/
theorem readFloat_shrinkF :
    ∀ (cs : List Char) (v : ℚ) (r : List Char),
      readFloat cs = some (v, r) → r.length < cs.length :=
  fun _ _ _ h => readFloat_shrink h

theorem fillInts_stuck {cs : List Char} (h : readInt cs = none) :
    fillInts cs = [] := by
  simp [fillInts, extractAll, h]

theorem fillInts_step {cs : List Char} {v : Int} {r : List Char}
    (h : readInt cs = some (v, r)) : fillInts cs = v :: fillInts r :=
  extractAll_step readInt_shrinkF h

theorem fillFloats_stuck {cs : List Char} (h : readFloat cs = none) :
    fillFloats cs = [] := by
  simp [fillFloats, extractAll, h]

theorem fillFloats_step {cs : List Char} {v : ℚ} {r : List Char}
    (h : readFloat cs = some (v, r)) : fillFloats cs = v :: fillFloats r :=
  extractAll_step readFloat_shrinkF h

/-- The storage size computed by the counting pass equals the length of the
sequence produced by the fill pass: the fill pass writes exactly as many
elements as were counted. -/
theorem countInts_eq_fill_length (cs : List Char) :
    countInts cs = (fillInts cs).length :=
  countAll_eq_length readInt _ cs

theorem countFloats_eq_fill_length (cs : List Char) :
    countFloats cs = (fillFloats cs).length :=
  countAll_eq_length readFloat _ cs

/-! ## Whitespace skipping -/

theorem readInt_ws {w cs : List Char} (hw : ∀ c ∈ w, isWs c) :
    readInt (w ++ cs) = readInt cs := by
  unfold readInt
  rw [List.dropWhile_append_of_pos hw]

theorem readFloat_ws {w cs : List Char} (hw : ∀ c ∈ w, isWs c) :
    readFloat (w ++ cs) = readFloat cs := by
  unfold readFloat
  rw [List.dropWhile_append_of_pos hw]

theorem extract_ws {α : Type} {read : List Char → Option (α × List Char)}
    (hshrink : ∀ cs v r, read cs = some (v, r) → r.length < cs.length)
    {w cs : List Char} (hr : read (w ++ cs) = read cs) :
    extractAll read ((w ++ cs).length + 1) (w ++ cs) =
      extractAll read (cs.length + 1) cs := by
  rcases hx : read cs with _ | ⟨v, r⟩
  · have h1 : read (w ++ cs) = none := hr.trans hx
    simp [extractAll, h1, hx]
  · have h1 : read (w ++ cs) = some (v, r) := hr.trans hx
    rw [extractAll_step hshrink h1, extractAll_step hshrink hx]

theorem fillInts_ws {w cs : List Char} (hw : ∀ c ∈ w, isWs c) :
    fillInts (w ++ cs) = fillInts cs :=
  extract_ws readInt_shrinkF (readInt_ws hw)

theorem fillFloats_ws {w cs : List Char} (hw : ∀ c ∈ w, isWs c) :
    fillFloats (w ++ cs) = fillFloats cs :=
  extract_ws readFloat_shrinkF (readFloat_ws hw)

/-! ## Numeric tokens -/

/-- A token that `>> int` accepts in full: optional sign then only digits. -/
def intTok (t : List Char) : Bool :=
  match t with
  | [] => false
  | c :: ts =>
    if c = '-' || c = '+' then !ts.isEmpty && ts.all Char.isDigit
    else (c :: ts).all Char.isDigit

/-- Value `>> int` assigns to such a token. -/
def intTokVal (t : List Char) : Int :=
  match t with
  | [] => 0
  | c :: ts =>
    if c = '-' || c = '+' then intSign c (digitsToNat ts)
    else intSign c (digitsToNat (c :: ts))

/-- The next character (if any) cannot extend a digit run. -/
def noDigitHead (r : List Char) : Bool :=
  match r with
  | [] => true
  | c :: _ => !c.isDigit

theorem noDigitHead_cases {r : List Char} (h : noDigitHead r = true) :
    r = [] ∨ ∃ c cs, r = c :: cs ∧ Char.isDigit c = false := by
  cases r with
  | nil => exact Or.inl rfl
  | cons c cs =>
    refine Or.inr ⟨c, cs, rfl, ?_⟩
    simpa [noDigitHead] using h

theorem isWs_not_digit {c : Char} (h : isWs c = true) : c.isDigit = false := by
  have h2 : c = ' ' ∨ (c = '\t' ∨ (c = '\n' ∨ (c = '\r' ∨ (c = '\x0b' ∨ c = '\x0c')))) := by
    simpa [isWs, Bool.or_eq_true, or_assoc] using h
  rcases h2 with rfl | rfl | rfl | rfl | rfl | rfl <;> decide

theorem digit_not_ws {c : Char} (h : c.isDigit = true) : isWs c = false := by
  by_cases hw : isWs c = true
  · rw [isWs_not_digit hw] at h; exact absurd h (by simp)
  · simpa using hw

/-- A whitespace-headed (or empty) remainder never extends a digit run. -/
theorem noDigitHead_of_wsHead {r : List Char}
    (h : r = [] ∨ ∃ c cs, r = c :: cs ∧ isWs c = true) : noDigitHead r = true := by
  rcases h with rfl | ⟨c, cs, rfl, hc⟩
  · rfl
  · simp [noDigitHead, isWs_not_digit hc]

/-- `>> int` on a full numeric token followed by a non-extending remainder
extracts exactly the token's value and leaves the remainder. -/
theorem readInt_tok {t r : List Char} (ht : intTok t = true)
    (hr : noDigitHead r = true) :
    readInt (t ++ r) = some (intTokVal t, r) := by
  cases t with
  | nil => simp [intTok] at ht
  | cons c ts =>
    have hrc := noDigitHead_cases hr
    simp only [intTok] at ht
    by_cases hs : (c = '-' || c = '+') = true
    · rw [if_pos hs] at ht
      simp only [Bool.and_eq_true, Bool.not_eq_true', List.isEmpty_eq_false,
        List.all_eq_true] at ht
      obtain ⟨hne, hall⟩ := ht
      have hcw : isWs c = false := by
        rcases Bool.or_eq_true_iff.mp hs with h1 | h1 <;>
          (rw [decide_eq_true_eq] at h1; subst h1; decide)
      have hdw : (c :: (ts ++ r)).dropWhile isWs = c :: (ts ++ r) :=
        List.dropWhile_cons_of_neg (by simp [hcw])
      simp only [List.cons_append, readInt, hdw, readIntBody, hs, if_true,
        readDigitsInt, takeWhile_append_stop hall hrc,
        dropWhile_append_stop hall hrc, if_neg hne, intTokVal]
    · rw [if_neg hs] at ht
      have hall : ∀ a ∈ c :: ts, Char.isDigit a := by
        simpa only [List.all_eq_true] using ht
      have hc : Char.isDigit c = true := hall c (by simp)
      have hcw : isWs c = false := digit_not_ws hc
      have hdw : (c :: (ts ++ r)).dropWhile isWs = c :: (ts ++ r) :=
        List.dropWhile_cons_of_neg (by simp [hcw])
      have htake := takeWhile_append_stop hall hrc
      have hdrop := dropWhile_append_stop hall hrc
      rw [List.cons_append] at htake hdrop
      simp only [List.cons_append, readInt, hdw, readIntBody, hs, if_false,
        readDigitsInt, htake, hdrop, if_neg (List.cons_ne_nil c ts), intTokVal]
      simp [htake, hdrop]

/-- Splitting a digit-run scan across an append whose right part cannot extend
the run. -/
theorem takeWhile_append_split {p : α → Bool} {l r : List α}
    (hnd : r = [] ∨ ∃ c cs, r = c :: cs ∧ p c = false) :
    (l ++ r).takeWhile p = l.takeWhile p ∧
      (l ++ r).dropWhile p = l.dropWhile p ++ r := by
  induction l with
  | nil =>
    rcases hnd with rfl | ⟨c, cs, rfl, hc⟩
    · simp
    · simp [List.takeWhile_cons, List.dropWhile_cons, hc]
  | cons a l ih =>
    by_cases hp : p a
    · simpa [List.cons_append, List.takeWhile_cons_of_pos hp,
        List.dropWhile_cons_of_pos hp] using ih
    · simp [List.cons_append, List.takeWhile_cons_of_neg hp,
        List.dropWhile_cons_of_neg hp]

/-- The appended remainder starts with whitespace (or is empty). -/
def wsHead (r : List Char) : Bool :=
  match r with
  | [] => true
  | c :: _ => isWs c

theorem wsHead_cases {r : List Char} (h : wsHead r = true) :
    r = [] ∨ ∃ c cs, r = c :: cs ∧ isWs c = true := by
  cases r with
  | nil => exact Or.inl rfl
  | cons c cs => exact Or.inr ⟨c, cs, rfl, by simpa [wsHead] using h⟩

theorem ws_char_facts {c : Char} (h : isWs c = true) :
    c.isDigit = false ∧ c ≠ '.' ∧ c ≠ 'e' ∧ c ≠ 'E' ∧ c ≠ '-' ∧ c ≠ '+' := by
  have h2 : c = ' ' ∨ (c = '\t' ∨ (c = '\n' ∨ (c = '\r' ∨ (c = '\x0b' ∨ c = '\x0c')))) := by
    simpa [isWs, Bool.or_eq_true, or_assoc] using h
  rcases h2 with rfl | rfl | rfl | rfl | rfl | rfl <;> exact ⟨by decide, by decide,
    by decide, by decide, by decide, by decide⟩

theorem digit_char_facts {c : Char} (h : c.isDigit = true) :
    isWs c = false ∧ c ≠ '-' ∧ c ≠ '+' ∧ c ≠ '.' ∧ c ≠ 'e' ∧ c ≠ 'E' := by
  refine ⟨digit_not_ws h, ?_, ?_, ?_, ?_, ?_⟩ <;>
    (rintro rfl; exact absurd h (by decide))

/-- `wsHead` implies `noDigitHead`. -/
theorem noDigitHead_of_wsHeadB {r : List Char} (h : wsHead r = true) :
    noDigitHead r = true :=
  noDigitHead_of_wsHead (wsHead_cases h)

/-- A token the exponent part accepts in full: optional sign then digits. -/
def expTok : List Char → Bool
  | [] => false
  | c :: ds =>
    if c = '-' || c = '+' then !ds.isEmpty && ds.all Char.isDigit
    else (c :: ds).all Char.isDigit

/-- Effect of a full exponent token on the mantissa value. -/
def expApply (base : ℚ) : List Char → ℚ
  | [] => base
  | c :: ds =>
    if c = '-' then base / (10 : ℚ) ^ digitsToNat ds
    else if c = '+' then base * (10 : ℚ) ^ digitsToNat ds
    else base * (10 : ℚ) ^ digitsToNat (c :: ds)

/-- Token acceptance after the mantissa: nothing, or a full exponent. -/
def floatRestTok (ipE fpE : Bool) : List Char → Bool
  | [] => !(ipE && fpE)
  | c :: r3 =>
    if ipE && fpE then false
    else if c = 'e' || c = 'E' then expTok r3
    else false

/-- Value after the mantissa. -/
def floatRestVal (base : ℚ) : List Char → ℚ
  | [] => base
  | c :: r3 => if c = 'e' || c = 'E' then expApply base r3 else base

/-- Token acceptance from the fraction stage on. -/
def floatFracTok (ip : List Char) : List Char → Bool
  | [] => floatRestTok ip.isEmpty true []
  | c :: rd =>
    if c = '.' then
      floatRestTok ip.isEmpty (rd.takeWhile Char.isDigit).isEmpty
        (rd.dropWhile Char.isDigit)
    else floatRestTok ip.isEmpty true (c :: rd)

/-- Value from the fraction stage on. -/
def floatFracVal (neg : Bool) (ip : List Char) : List Char → ℚ
  | [] => floatRestVal (mantVal neg ip []) []
  | c :: rd =>
    if c = '.' then
      floatRestVal (mantVal neg ip (rd.takeWhile Char.isDigit))
        (rd.dropWhile Char.isDigit)
    else floatRestVal (mantVal neg ip []) (c :: rd)

/-- A token that `>> float` accepts in full: optional sign, digits with an
optional decimal point, optional exponent. -/
def floatTok : List Char → Bool
  | [] => false
  | c :: ts =>
    floatFracTok ((if c = '-' || c = '+' then ts else c :: ts).takeWhile Char.isDigit)
      ((if c = '-' || c = '+' then ts else c :: ts).dropWhile Char.isDigit)

/-- Value `>> float` assigns to such a token. -/
def floatTokVal : List Char → ℚ
  | [] => 0
  | c :: ts =>
    floatFracVal (c = '-')
      ((if c = '-' || c = '+' then ts else c :: ts).takeWhile Char.isDigit)
      ((if c = '-' || c = '+' then ts else c :: ts).dropWhile Char.isDigit)

theorem readExp_tok {r3 rem : List Char} {base : ℚ} (ht : expTok r3 = true)
    (hr : wsHead rem = true) :
    readExp base (r3 ++ rem) = some (expApply base r3, rem) := by
  cases r3 with
  | nil => simp [expTok] at ht
  | cons c ds =>
    have hcases := noDigitHead_cases (noDigitHead_of_wsHeadB hr)
    simp only [expTok] at ht
    by_cases hs : (c = '-' || c = '+') = true
    · rw [if_pos hs] at ht
      simp only [Bool.and_eq_true, Bool.not_eq_true', List.isEmpty_eq_false,
        List.all_eq_true] at ht
      obtain ⟨hne, hall⟩ := ht
      have htake := takeWhile_append_stop hall hcases
      have hdrop := dropWhile_append_stop hall hcases
      rcases Bool.or_eq_true_iff.mp hs with h1 | h1 <;> rw [decide_eq_true_eq] at h1 <;>
        subst h1 <;>
        simp [List.cons_append, readExp, readExpDigits, htake, hdrop, hne, expApply]
    · rw [if_neg hs] at ht
      have hall : ∀ a ∈ c :: ds, Char.isDigit a := by
        simpa only [List.all_eq_true] using ht
      have hc := digit_char_facts (hall c (by simp))
      have htake := takeWhile_append_stop hall hcases
      have hdrop := dropWhile_append_stop hall hcases
      rw [List.cons_append] at htake hdrop
      simp [List.cons_append, readExp, readExpDigits, htake, hdrop, hc.2.1, hc.2.2.1,
        expApply]

theorem readAfterMant_tok {ip fp r2 rem : List Char} {neg : Bool}
    (ht : floatRestTok ip.isEmpty fp.isEmpty r2 = true) (hr : wsHead rem = true) :
    readAfterMant neg ip fp (r2 ++ rem) =
      some (floatRestVal (mantVal neg ip fp) r2, rem) := by
  have hemp : ¬(ip = [] ∧ fp = []) := by
    rintro ⟨rfl, rfl⟩
    cases r2 <;> simp [floatRestTok] at ht
  have hb : (ip.isEmpty && fp.isEmpty) = false := by
    by_cases hip : ip = [] <;> by_cases hfp : fp = [] <;>
      simp [hip, hfp] at hemp ⊢
  cases r2 with
  | nil =>
    rcases wsHead_cases hr with rfl | ⟨w, ws2, rfl, hw⟩
    · simp [readAfterMant, hemp, floatRestVal]
    · have hwf := ws_char_facts hw
      simp [readAfterMant, hemp, floatRestVal, hwf.2.2.1, hwf.2.2.2.1]
  | cons c r3 =>
    rw [floatRestTok, hb] at ht
    simp only [Bool.false_eq_true, if_false] at ht
    by_cases hc : (c = 'e' || c = 'E') = true
    · rw [if_pos hc] at ht
      have e1 : readAfterMant neg ip fp (c :: (r3 ++ rem)) =
          readExp (mantVal neg ip fp) (r3 ++ rem) := by
        simp [readAfterMant, hemp, hc]
      rw [List.cons_append, e1, readExp_tok ht hr]
      simp [floatRestVal, hc]
    · rw [if_neg hc] at ht
      exact absurd ht (by simp)

theorem readFrac_tok {ip r1 rem : List Char} {neg : Bool}
    (ht : floatFracTok ip r1 = true) (hr : wsHead rem = true) :
    readFrac neg ip (r1 ++ rem) = some (floatFracVal neg ip r1, rem) := by
  have hcases := noDigitHead_cases (noDigitHead_of_wsHeadB hr)
  cases r1 with
  | nil =>
    simp only [floatFracTok] at ht
    rcases wsHead_cases hr with rfl | ⟨w, ws2, rfl, hw⟩
    · exact @readAfterMant_tok ip [] [] [] neg ht rfl
    · have hwf := ws_char_facts hw
      have e1 : readFrac neg ip ([] ++ w :: ws2) =
          readAfterMant neg ip [] ([] ++ (w :: ws2)) := by
        simp [readFrac, hwf.2.1]
      rw [e1]
      exact @readAfterMant_tok ip [] [] (w :: ws2) neg ht hr
  | cons d rd =>
    simp only [floatFracTok] at ht
    by_cases hd : d = '.'
    · subst hd
      rw [if_pos rfl] at ht
      obtain ⟨htk, hdr⟩ := @takeWhile_append_split Char Char.isDigit rd rem hcases
      have e1 : readFrac neg ip (('.' :: rd) ++ rem) =
          readAfterMant neg ip ((rd ++ rem).takeWhile Char.isDigit)
            ((rd ++ rem).dropWhile Char.isDigit) := by
        simp [readFrac]
      rw [e1, htk, hdr, readAfterMant_tok ht hr]
      simp [floatFracVal]
    · rw [if_neg hd] at ht
      have e1 : readFrac neg ip ((d :: rd) ++ rem) =
          readAfterMant neg ip [] ((d :: rd) ++ rem) := by
        simp [readFrac, hd]
      rw [e1, @readAfterMant_tok ip [] (d :: rd) rem neg ht hr]
      simp [floatFracVal, hd]

theorem readFloat_tok {t rem : List Char} (ht : floatTok t = true)
    (hr : wsHead rem = true) :
    readFloat (t ++ rem) = some (floatTokVal t, rem) := by
  cases t with
  | nil => simp [floatTok] at ht
  | cons c ts =>
    simp only [floatTok] at ht
    have hcw : isWs c = false := by
      by_cases hw : isWs c = true
      · exfalso
        have hwf := ws_char_facts hw
        have hsf : (c = '-' || c = '+') = false := by
          simp [hwf.2.2.2.2.1, hwf.2.2.2.2.2]
        rw [hsf] at ht
        simp only [Bool.false_eq_true, if_false] at ht
        rw [List.takeWhile_cons_of_neg (by simp [hwf.1]),
          List.dropWhile_cons_of_neg (by simp [hwf.1])] at ht
        simp [floatFracTok, hwf.2.1, floatRestTok] at ht
      · simpa using hw
    have hdw : (c :: (ts ++ rem)).dropWhile isWs = c :: (ts ++ rem) :=
      List.dropWhile_cons_of_neg (by simp [hcw])
    by_cases hs : (c = '-' || c = '+') = true
    · rw [if_pos hs] at ht
      have e1 : readFloat ((c :: ts) ++ rem) = readMant (c = '-') (ts ++ rem) := by
        simp [List.cons_append, readFloat, hdw, readFloatBody, hs]
      obtain ⟨htk, hdr⟩ := @takeWhile_append_split Char Char.isDigit ts rem
        (noDigitHead_cases (noDigitHead_of_wsHeadB hr))
      rw [e1]
      unfold readMant
      rw [htk, hdr, readFrac_tok ht hr]
      simp [floatTokVal, hs]
    · rw [if_neg hs] at ht
      have e1 : readFloat ((c :: ts) ++ rem) = readMant (c = '-') ((c :: ts) ++ rem) := by
        simp only [List.cons_append, readFloat, hdw, readFloatBody]
        rw [if_neg (by simpa using hs)]
      obtain ⟨htk, hdr⟩ := @takeWhile_append_split Char Char.isDigit (c :: ts) rem
        (noDigitHead_cases (noDigitHead_of_wsHeadB hr))
      rw [e1]
      unfold readMant
      rw [htk, hdr, readFrac_tok ht hr]
      simp [floatTokVal, hs]

/-! ## Whitespace-separated token files -/

/-- A file laid out as tokens, each followed by its whitespace run, with a
final remainder `tail`. -/
def flatToks : List (List Char × List Char) → List Char → List Char
  | [], tail => tail
  | (t, s) :: ps, tail => t ++ (s ++ flatToks ps tail)

/-- Separation discipline: a token's whitespace run may be empty only when the
token is the very last thing in the file. -/
def sepOKb : List (List Char × List Char) → List Char → Bool
  | [], _ => true
  | (_, s) :: ps, tail =>
    (!s.isEmpty || (ps.isEmpty && tail.isEmpty)) && sepOKb ps tail

/-- The fill pass over a file of full integer tokens with a stuck remainder
extracts exactly the tokens' values, in file order. -/
theorem fillInts_toks :
    ∀ (ps : List (List Char × List Char)) (tail : List Char),
      (∀ p ∈ ps, intTok p.1 = true ∧ p.2.all isWs = true) →
      sepOKb ps tail = true → readInt tail = none →
      fillInts (flatToks ps tail) = ps.map (fun p => intTokVal p.1) := by
  intro ps
  induction ps with
  | nil =>
    intro tail _ _ htail
    exact fillInts_stuck htail
  | cons p ps ih =>
    obtain ⟨t, s⟩ := p
    intro tail hmem hsep htail
    simp only [sepOKb, Bool.and_eq_true] at hsep
    obtain ⟨hsep1, hsep2⟩ := hsep
    have hts := hmem (t, s) (by simp)
    have hnd : noDigitHead (s ++ flatToks ps tail) = true := by
      cases s with
      | nil =>
        have hpt : ps = [] ∧ tail = [] := by
          simpa using hsep1
        obtain ⟨rfl, rfl⟩ := hpt
        simp [flatToks, noDigitHead]
      | cons w ws2 =>
        have hw : isWs w = true := by
          have := hts.2
          simp only [List.all_eq_true] at this
          exact this w (by simp)
        simp [noDigitHead, isWs_not_digit hw]
    have hstep := readInt_tok hts.1 hnd
    have hws : ∀ c ∈ s, isWs c := by
      have := hts.2
      simpa only [List.all_eq_true] using this
    rw [show flatToks ((t, s) :: ps) tail = t ++ (s ++ flatToks ps tail) from rfl,
      fillInts_step hstep, fillInts_ws hws,
      ih tail (fun q hq => hmem q (by simp [hq])) hsep2 htail]
    simp

/-- The fill pass over a file of full float tokens with a stuck remainder
extracts exactly the tokens' values, in file order. -/
theorem fillFloats_toks :
    ∀ (ps : List (List Char × List Char)) (tail : List Char),
      (∀ p ∈ ps, floatTok p.1 = true ∧ p.2.all isWs = true) →
      sepOKb ps tail = true → readFloat tail = none →
      fillFloats (flatToks ps tail) = ps.map (fun p => floatTokVal p.1) := by
  intro ps
  induction ps with
  | nil =>
    intro tail _ _ htail
    exact fillFloats_stuck htail
  | cons p ps ih =>
    obtain ⟨t, s⟩ := p
    intro tail hmem hsep htail
    simp only [sepOKb, Bool.and_eq_true] at hsep
    obtain ⟨hsep1, hsep2⟩ := hsep
    have hts := hmem (t, s) (by simp)
    have hwsh : wsHead (s ++ flatToks ps tail) = true := by
      cases s with
      | nil =>
        have hpt : ps = [] ∧ tail = [] := by
          simpa using hsep1
        obtain ⟨rfl, rfl⟩ := hpt
        simp [flatToks, wsHead]
      | cons w ws2 =>
        have hw : isWs w = true := by
          have := hts.2
          simp only [List.all_eq_true] at this
          exact this w (by simp)
        simp [wsHead, hw]
    have hstep := readFloat_tok hts.1 hwsh
    have hws : ∀ c ∈ s, isWs c := by
      have := hts.2
      simpa only [List.all_eq_true] using this
    rw [show flatToks ((t, s) :: ps) tail = t ++ (s ++ flatToks ps tail) from rfl,
      fillFloats_step hstep, fillFloats_ws hws,
      ih tail (fun q hq => hmem q (by simp [hq])) hsep2 htail]
    simp

/-- Case analysis over the `switch` body: one hypothesis per handler. -/
theorem applyOpt_elim {c : Char} {a : Option String} {st : PState}
    {P : StepRes → Prop}
    (h1 : c = 'h' → P (.stop .helpExit))
    (h2 : c = 'o' → P (.cont (setFileOut (a.getD "") st)))
    (h3 : c = 'N' → P (.cont (setFrameCount (a.getD "") st)))
    (h4 : c = 'x' → P (.cont (setXOff (a.getD "") st)))
    (h5 : c = 'y' → P (.cont (setYOff (a.getD "") st)))
    (h6 : c = 'Q' → P (.cont (setQFile (a.getD "") st)))
    (h7 : c = 'T' → P (.cont (setTFile (a.getD "") st)))
    (h8 : c = 'S' → P (.cont (setSFile (a.getD "") st)))
    (h9 : c = 'E' → P (.cont (setEFile (a.getD "") st)))
    (h10 : c = 'I' → P (.cont (setIndexFps st)))
    (h11 : c = 's' → P (.cont (setFrameOffset (a.getD "") st)))
    (h12 : c = 'f' → st.input_specified = true → P (.stop (.fatal msgConflict)))
    (h13 : c = 'f' → st.input_specified = false → P (.cont (setFileIn (a.getD "") st)))
    (h14 : c = 'W' → st.input_specified = true → P (.stop (.fatal msgConflict)))
    (h15 : c = 'W' → st.input_specified = false → P (.cont (setWebcam a st)))
    (h16 : c = 'B' → P (.cont (setBenchmark st)))
    (h17 : c = 'v' → P (.cont (setVerboseOn st)))
    (h18 : c = 't' → P (.cont (setTolerance (a.getD "") st)))
    (h19 : c = 'C' → P (.cont (setChunkLength (a.getD "") st)))
    (h20 : c = 'M' → P (.cont (setMovieFile st)))
    (h21 : c = 'G' → P (.cont (setRollingPurge (a.getD "") st)))
    (h22 : c = 'F' → P (.cont (setExplicitFps (a.getD "") st)))
    (h23 : c = 'A' → P (.cont (setAngleAnalysis st)))
    (h24 : c = 'n' → P (.cont (setAngleCount (a.getD "") st)))
    (h25 : c = 'Z' → P (.cont (setMultiOff st)))
    (h26 : c ∉ ['h', 'o', 'N', 'x', 'y', 'Q', 'T', 'S', 'E', 'I', 's', 'f', 'W',
      'B', 'v', 't', 'C', 'M', 'G', 'F', 'A', 'n', 'Z'] → P (.cont st)) :
    P (applyOpt c a st) := by
  unfold applyOpt
  by_cases k1 : c = 'h'
  · rw [if_pos k1]; exact h1 k1
  · rw [if_neg k1]
    by_cases k2 : c = 'o'
    · rw [if_pos k2]; exact h2 k2
    · rw [if_neg k2]
      by_cases k3 : c = 'N'
      · rw [if_pos k3]; exact h3 k3
      · rw [if_neg k3]
        by_cases k4 : c = 'x'
        · rw [if_pos k4]; exact h4 k4
        · rw [if_neg k4]
          by_cases k5 : c = 'y'
          · rw [if_pos k5]; exact h5 k5
          · rw [if_neg k5]
            by_cases k6 : c = 'Q'
            · rw [if_pos k6]; exact h6 k6
            · rw [if_neg k6]
              by_cases k7 : c = 'T'
              · rw [if_pos k7]; exact h7 k7
              · rw [if_neg k7]
                by_cases k8 : c = 'S'
                · rw [if_pos k8]; exact h8 k8
                · rw [if_neg k8]
                  by_cases k9 : c = 'E'
                  · rw [if_pos k9]; exact h9 k9
                  · rw [if_neg k9]
                    by_cases k10 : c = 'I'
                    · rw [if_pos k10]; exact h10 k10
                    · rw [if_neg k10]
                      by_cases k11 : c = 's'
                      · rw [if_pos k11]; exact h11 k11
                      · rw [if_neg k11]
                        by_cases k12 : c = 'f'
                        · rw [if_pos k12]
                          by_cases kw12 : st.input_specified = true
                          · rw [if_pos kw12]; exact h12 k12 kw12
                          · rw [if_neg kw12]; exact h13 k12 (by simpa using kw12)
                        · rw [if_neg k12]
                          by_cases k13 : c = 'W'
                          · rw [if_pos k13]
                            by_cases kw13 : st.input_specified = true
                            · rw [if_pos kw13]; exact h14 k13 kw13
                            · rw [if_neg kw13]; exact h15 k13 (by simpa using kw13)
                          · rw [if_neg k13]
                            by_cases k14 : c = 'B'
                            · rw [if_pos k14]; exact h16 k14
                            · rw [if_neg k14]
                              by_cases k15 : c = 'v'
                              · rw [if_pos k15]; exact h17 k15
                              · rw [if_neg k15]
                                by_cases k16 : c = 't'
                                · rw [if_pos k16]; exact h18 k16
                                · rw [if_neg k16]
                                  by_cases k17 : c = 'C'
                                  · rw [if_pos k17]; exact h19 k17
                                  · rw [if_neg k17]
                                    by_cases k18 : c = 'M'
                                    · rw [if_pos k18]; exact h20 k18
                                    · rw [if_neg k18]
                                      by_cases k19 : c = 'G'
                                      · rw [if_pos k19]; exact h21 k19
                                      · rw [if_neg k19]
                                        by_cases k20 : c = 'F'
                                        · rw [if_pos k20]; exact h22 k20
                                        · rw [if_neg k20]
                                          by_cases k21 : c = 'A'
                                          · rw [if_pos k21]; exact h23 k21
                                          · rw [if_neg k21]
                                            by_cases k22 : c = 'n'
                                            · rw [if_pos k22]; exact h24 k22
                                            · rw [if_neg k22]
                                              by_cases k23 : c = 'Z'
                                              · rw [if_pos k23]; exact h25 k23
                                              · rw [if_neg k23]
                                                refine h26 ?_
                                                simp only [List.mem_cons, List.not_mem_nil, or_false]
                                                push_neg
                                                exact ⟨k1, k2, k3, k4, k5, k6, k7, k8, k9, k10, k11, k12, k13, k14, k15, k16, k17, k18, k19, k20, k21, k22, k23⟩

/-- The only early exits of the `switch` body are the help exit (`case 'h'`)
and the input-source conflict assertion of `-f`/`-W`. -/
theorem applyOpt_stop {c : Char} {a : Option String} {st : PState} {r : LoopRes}
    (h : applyOpt c a st = .stop r) : r = .helpExit ∨ r = .fatal msgConflict := by
  revert h
  refine @applyOpt_elim c a st
    (fun res => res = .stop r → r = .helpExit ∨ r = .fatal msgConflict)
    ?_ ?_ ?_ ?_ ?_ ?_ ?_ ?_ ?_ ?_ ?_ ?_ ?_ ?_ ?_ ?_ ?_ ?_ ?_ ?_ ?_ ?_ ?_ ?_ ?_ ?_ <;>
    first
      | (intro _ h; exact StepRes.noConfusion h)
      | (intro _ _ h; exact StepRes.noConfusion h)
      | (intro _ h; injection h with h2; exact Or.inl h2.symm)
      | (intro _ _ h; injection h with h2; exact Or.inr h2.symm)

/-- No handler other than `case 'Z'` writes `multi_stream`. -/
theorem applyOpt_multi {c : Char} {a : Option String} {st st' : PState}
    (hc : c ≠ 'Z') (h : applyOpt c a st = .cont st') :
    st'.params.multi_stream = st.params.multi_stream := by
  revert h
  refine @applyOpt_elim c a st
    (fun res => res = .cont st' → st'.params.multi_stream = st.params.multi_stream)
    ?_ ?_ ?_ ?_ ?_ ?_ ?_ ?_ ?_ ?_ ?_ ?_ ?_ ?_ ?_ ?_ ?_ ?_ ?_ ?_ ?_ ?_ ?_ ?_ ?_ ?_ <;>
    first
      | (intro _ h; exact StepRes.noConfusion h)
      | (intro _ _ h; exact StepRes.noConfusion h)
      | (intro hk h; injection h with h2; subst h2; first | rfl | exact absurd hk hc)
      | (intro _ _ h; injection h with h2; subst h2; rfl)

/-- `case 'Z'` turns `multi_stream` off and changes nothing else. -/
theorem applyOpt_Z (a : Option String) (st : PState) :
    applyOpt 'Z' a st = .cont (setMultiOff st) := by
  simp [applyOpt]

/-- `input_specified` is set by exactly the three source handlers
`-f`, `-W`, `-B` and cleared by none. -/
theorem applyOpt_input {c : Char} {a : Option String} {st st' : PState}
    (h : applyOpt c a st = .cont st') :
    st'.input_specified =
      (st.input_specified || (c = 'f' || c = 'W' || c = 'B')) := by
  revert h
  refine @applyOpt_elim c a st
    (fun res => res = .cont st' →
      st'.input_specified = (st.input_specified || (c = 'f' || c = 'W' || c = 'B')))
    ?_ ?_ ?_ ?_ ?_ ?_ ?_ ?_ ?_ ?_ ?_ ?_ ?_ ?_ ?_ ?_ ?_ ?_ ?_ ?_ ?_ ?_ ?_ ?_ ?_ ?_ <;>
    first
      | (intro _ h; exact StepRes.noConfusion h)
      | (intro _ _ h; exact StepRes.noConfusion h)
      | (intro hk h; injection h with h2; subst h2; subst hk;
         simp [setFileOut, setFrameCount, setXOff, setYOff, setQFile, setTFile,
           setSFile, setEFile, setIndexFps, setFrameOffset, setBenchmark,
           setVerboseOn, setTolerance, setChunkLength, setMovieFile,
           setRollingPurge, setExplicitFps, setAngleAnalysis, setAngleCount,
           setMultiOff])
      | (intro hk _ h; injection h with h2; subst h2; subst hk;
         simp [setFileIn, setWebcam])
      | (intro hne h; injection h with h2; subst h2;
         have hf : c ≠ 'f' := fun hq => hne (by simp [hq])
         have hw : c ≠ 'W' := fun hq => hne (by simp [hq])
         have hb : c ≠ 'B' := fun hq => hne (by simp [hq])
         simp [hf, hw, hb])

/-- Once the input source is set, `-f` and `-W` abort fatally. -/
theorem applyOpt_conflict {a : Option String} {st : PState}
    (hi : st.input_specified = true) :
    applyOpt 'f' a st = .stop (.fatal msgConflict) ∧
      applyOpt 'W' a st = .stop (.fatal msgConflict) := by
  constructor <;> simp [applyOpt, hi]

/-- With the discriminant still unset, `-f` stores the path. -/
theorem applyOpt_f {a : Option String} {st : PState}
    (hi : st.input_specified = false) :
    applyOpt 'f' a st = .cont (setFileIn (a.getD "") st) := by
  simp [applyOpt, hi]

/-- With the discriminant still unset, `-W` enables webcam mode. -/
theorem applyOpt_W {a : Option String} {st : PState}
    (hi : st.input_specified = false) :
    applyOpt 'W' a st = .cont (setWebcam a st) := by
  simp [applyOpt, hi]

/-- The `-t` handler stores `1.0 + atoi(optarg) / 100`. -/
theorem applyOpt_t (a : Option String) (st : PState) :
    applyOpt 't' a st = .cont (setTolerance (a.getD "") st) := by
  simp [applyOpt]

/-- Invariant maintained by every handler: a nonempty input path or webcam
mode implies the discriminant, and never both at once. -/
def SrcInv (st : PState) : Prop :=
  (st.params.use_webcam = true → st.input_specified = true) ∧
  (st.params.file_in ≠ "" → st.input_specified = true) ∧
  ¬(st.params.use_webcam = true ∧ st.params.file_in ≠ "")

theorem applyOpt_inv {c : Char} {a : Option String} {st st' : PState}
    (hi : SrcInv st) (h : applyOpt c a st = .cont st') : SrcInv st' := by
  revert h
  refine @applyOpt_elim c a st (fun res => res = .cont st' → SrcInv st')
    ?_ ?_ ?_ ?_ ?_ ?_ ?_ ?_ ?_ ?_ ?_ ?_ ?_ ?_ ?_ ?_ ?_ ?_ ?_ ?_ ?_ ?_ ?_ ?_ ?_ ?_ <;>
    first
      | (intro _ h; exact StepRes.noConfusion h)
      | (intro _ _ h; exact StepRes.noConfusion h)
      | (intro _ h; injection h with h2; subst h2; exact hi)
      | (intro _ h; injection h with h2; subst h2;
         exact ⟨fun _ => rfl, fun hq => rfl, hi.2.2⟩)
      | (intro _ hw h; injection h with h2; subst h2;
         refine ⟨fun _ => rfl, fun _ => rfl, ?_⟩
         rintro ⟨hwc, hf⟩
         first
           | exact absurd (hi.1 hwc) (by simp [hw])
           | exact absurd (hi.2.1 hf) (by simp [hw]))

/-! ## Element-scan facts -/

/-- The only early exits while scanning one element are the help exit and the
`-f`/`-W` conflict assertion. -/
theorem parseElem_stop {cs : List Char} {st : PState} {r : LoopRes}
    (h : parseElem cs st = .stop r) : r = .helpExit ∨ r = .fatal msgConflict := by
  induction cs generalizing st with
  | nil => simp [parseElem] at h
  | cons c rest ih =>
    simp only [parseElem] at h
    cases hol : optLookup c with
    | none =>
      rw [hol] at h
      simp at h
      exact Or.inl h.symm
    | some spec =>
      rw [hol] at h
      cases spec with
      | noArg =>
        cases hap : applyOpt c none st with
        | stop r2 =>
          rw [hap] at h
          simp at h
          rw [← h]
          exact applyOpt_stop hap
        | cont st2 =>
          rw [hap] at h
          simp at h
          exact ih h
      | reqArg =>
        by_cases hre : rest.isEmpty
        · rw [if_pos hre] at h
          simp at h
        · rw [if_neg hre] at h
          cases hap : applyOpt c (some (String.mk rest)) st with
          | stop r2 =>
            rw [hap] at h
            simp at h
            rw [← h]
            exact applyOpt_stop hap
          | cont st2 =>
            rw [hap] at h
            simp at h
      | optArg =>
        cases hap : applyOpt c (if rest.isEmpty then none else some (String.mk rest)) st with
        | stop r2 =>
          rw [hap] at h
          simp at h
          rw [← h]
          exact applyOpt_stop hap
        | cont st2 =>
          rw [hap] at h
          simp at h

/-- Element scanning preserves the input-source invariant into a `done`
state. -/
theorem parseElem_done_inv {cs : List Char} {st st' : PState}
    (hi : SrcInv st) (h : parseElem cs st = .done st') : SrcInv st' := by
  induction cs generalizing st with
  | nil =>
    simp only [parseElem] at h
    injection h with h2
    subst h2
    exact hi
  | cons c rest ih =>
    simp only [parseElem] at h
    cases hol : optLookup c with
    | none =>
      rw [hol] at h
      simp at h
    | some spec =>
      rw [hol] at h
      cases spec with
      | noArg =>
        cases hap : applyOpt c none st with
        | stop r2 => rw [hap] at h; simp at h
        | cont st2 =>
          rw [hap] at h
          simp at h
          exact ih (applyOpt_inv hi hap) h
      | reqArg =>
        by_cases hre : rest.isEmpty
        · rw [if_pos hre] at h
          simp at h
        · rw [if_neg hre] at h
          cases hap : applyOpt c (some (String.mk rest)) st with
          | stop r2 => rw [hap] at h; simp at h
          | cont st2 =>
            rw [hap] at h
            simp at h
            rw [← h]
            exact applyOpt_inv hi hap
      | optArg =>
        cases hap : applyOpt c (if rest.isEmpty then none else some (String.mk rest)) st with
        | stop r2 => rw [hap] at h; simp at h
        | cont st2 =>
          rw [hap] at h
          simp at h
          rw [← h]
          exact applyOpt_inv hi hap

/-- Element scanning preserves the input-source invariant into a `needArg`
state. -/
theorem parseElem_need_inv {cs : List Char} {st : PState} {c : Char}
    {st' : PState} (hi : SrcInv st) (h : parseElem cs st = .needArg c st') :
    SrcInv st' := by
  induction cs generalizing st with
  | nil => simp [parseElem] at h
  | cons c0 rest ih =>
    simp only [parseElem] at h
    cases hol : optLookup c0 with
    | none =>
      rw [hol] at h
      simp at h
    | some spec =>
      rw [hol] at h
      cases spec with
      | noArg =>
        cases hap : applyOpt c0 none st with
        | stop r2 => rw [hap] at h; simp at h
        | cont st2 =>
          rw [hap] at h
          simp at h
          exact ih (applyOpt_inv hi hap) h
      | reqArg =>
        by_cases hre : rest.isEmpty
        · rw [if_pos hre] at h
          simp at h
          rw [← h.2]
          exact hi
        · rw [if_neg hre] at h
          cases hap : applyOpt c0 (some (String.mk rest)) st with
          | stop r2 => rw [hap] at h; simp at h
          | cont st2 => rw [hap] at h; simp at h
      | optArg =>
        cases hap : applyOpt c0 (if rest.isEmpty then none else some (String.mk rest)) st with
        | stop r2 => rw [hap] at h; simp at h
        | cont st2 => rw [hap] at h; simp at h

/-! ## Loop-level facts -/

/-- Early exits while classifying one element are the help exit and the
`-f`/`-W` conflict assertion. -/
theorem elemStep_stop {e : String} {st : PState} {r : LoopRes}
    (h : elemStep e st = .stop r) : r = .helpExit ∨ r = .fatal msgConflict := by
  unfold elemStep at h
  split_ifs at h with hdd
  rcases hd : e.data with _ | ⟨c1, _ | ⟨c2, cs2⟩⟩ <;> rw [hd] at h
  · simp at h
  · simp at h
  · dsimp only at h
    split_ifs at h with hc1
    · cases hpe : parseElem (c2 :: cs2) st with
      | stop r2 =>
        rw [hpe] at h
        simp at h
        rw [← h]
        exact parseElem_stop hpe
      | done st2 => rw [hpe] at h; simp at h
      | needArg c st2 => rw [hpe] at h; simp at h

/-- Element classification preserves the input-source invariant (`done`). -/
theorem elemStep_done_inv {e : String} {st st' : PState}
    (hi : SrcInv st) (h : elemStep e st = .done st') : SrcInv st' := by
  unfold elemStep at h
  split_ifs at h with hdd
  rcases hd : e.data with _ | ⟨c1, _ | ⟨c2, cs2⟩⟩ <;> rw [hd] at h
  · simp at h
  · simp at h
  · dsimp only at h
    split_ifs at h with hc1
    · cases hpe : parseElem (c2 :: cs2) st with
      | stop r2 => rw [hpe] at h; simp at h
      | done st2 =>
        rw [hpe] at h
        simp at h
        rw [← h]
        exact parseElem_done_inv hi hpe
      | needArg c st2 => rw [hpe] at h; simp at h

/-- Element classification preserves the input-source invariant
(`needArg`). -/
theorem elemStep_need_inv {e : String} {st : PState} {c : Char} {st' : PState}
    (hi : SrcInv st) (h : elemStep e st = .needArg c st') : SrcInv st' := by
  unfold elemStep at h
  split_ifs at h with hdd
  rcases hd : e.data with _ | ⟨c1, _ | ⟨c2, cs2⟩⟩ <;> rw [hd] at h
  · simp at h
  · simp at h
  · dsimp only at h
    split_ifs at h with hc1
    · cases hpe : parseElem (c2 :: cs2) st with
      | stop r2 => rw [hpe] at h; simp at h
      | done st2 => rw [hpe] at h; simp at h
      | needArg c3 st2 =>
        rw [hpe] at h
        simp at h
        rw [← h.2]
        exact parseElem_need_inv hi hpe

/-- The only `conditionAssert` that can fire inside the `getopt` loop is the
`-f`/`-W` input-source conflict. -/
theorem parseLoop_fatal {argv : List String} {st : PState} {ops : List String}
    {m : String} (h : parseLoop argv st ops = .fatal m) : m = msgConflict := by
  induction argv, st, ops using parseLoop.induct with
  | case1 st ops => simp [parseLoop] at h
  | case2 e rest st ops hstep => simp [parseLoop, hstep] at h
  | case3 e rest st ops r0 hstep =>
    simp only [parseLoop, hstep] at h
    rcases elemStep_stop hstep with rfl | rfl
    · simp at h
    · injection h with h2
      exact h2.symm
  | case4 e rest st ops st2 hstep ih =>
    simp only [parseLoop, hstep] at h
    exact ih h
  | case5 e rest st ops hstep ih =>
    simp only [parseLoop, hstep] at h
    exact ih h
  | case6 e st ops c st2 hstep =>
    simp [parseLoop, hstep] at h
  | case7 e st ops c st2 hstep a rest2 r0 hap =>
    simp only [parseLoop, hstep, hap] at h
    rcases applyOpt_stop hap with rfl | rfl
    · simp at h
    · injection h with h2
      exact h2.symm
  | case8 e st ops c st2 hstep a rest2 st3 hap ih =>
    simp only [parseLoop, hstep, hap] at h
    exact ih h

/-- The `getopt` loop preserves the input-source invariant. -/
theorem parseLoop_inv {argv : List String} {st : PState} {ops : List String}
    {st' : PState} {ops' : List String} (hi : SrcInv st)
    (h : parseLoop argv st ops = .ok st' ops') : SrcInv st' := by
  induction argv, st, ops using parseLoop.induct with
  | case1 st ops =>
    simp only [parseLoop] at h
    injection h with h1 h2
    subst h1
    exact hi
  | case2 e rest st ops hstep =>
    simp only [parseLoop, hstep] at h
    injection h with h1 h2
    subst h1
    exact hi
  | case3 e rest st ops r0 hstep =>
    simp only [parseLoop, hstep] at h
    rcases elemStep_stop hstep with rfl | rfl <;> simp at h
  | case4 e rest st ops st2 hstep ih =>
    simp only [parseLoop, hstep] at h
    exact ih (elemStep_done_inv hi hstep) h
  | case5 e rest st ops hstep ih =>
    simp only [parseLoop, hstep] at h
    exact ih hi h
  | case6 e st ops c st2 hstep =>
    simp [parseLoop, hstep] at h
  | case7 e st ops c st2 hstep a rest2 r0 hap =>
    simp only [parseLoop, hstep, hap] at h
    rcases applyOpt_stop hap with rfl | rfl <;> simp at h
  | case8 e st ops c st2 hstep a rest2 st3 hap ih =>
    simp only [parseLoop, hstep, hap] at h
    exact ih (applyOpt_inv (elemStep_need_inv hi hstep) hap) h

/-! ## Facts about the top level of `main` -/

/-- The zero-initialized global state satisfies the input-source invariant. -/
theorem srcInv_init : SrcInv initPState := by
  refine ⟨fun h => ?_, fun h => ?_, fun h => ?_⟩
  · simp [initPState] at h
  · simp [initPState] at h
  · simp [initPState] at h

theorem mainModel_help {argv : List String} {fs : String → Option String}
    (hp : parseLoop argv initPState [] = .helpExit) :
    mainModel argv fs = .exitHelp := by
  unfold mainModel
  rw [hp]

theorem mainModel_trailing {argv : List String} {fs : String → Option String}
    {st : PState} {ops : List String}
    (hp : parseLoop argv initPState [] = .ok st ops) (ho : ops ≠ []) :
    mainModel argv fs = .exitFatal true msgUnexpected := by
  unfold mainModel
  rw [hp]
  simp [ho]

theorem mainModel_noinput {argv : List String} {fs : String → Option String}
    {st : PState} (hp : parseLoop argv initPState [] = .ok st [])
    (hi : st.input_specified = false) :
    mainModel argv fs = .exitFatal false msgNoInput := by
  unfold mainModel
  rw [hp]
  simp [hi]

theorem mainModel_eq_load {argv : List String} {fs : String → Option String}
    {st : PState} (hp : parseLoop argv initPState [] = .ok st [])
    (hi : st.input_specified = true) :
    mainModel argv fs = loadAndRun fs st := by
  unfold mainModel
  rw [hp]
  simp [hi]

/-- A `runDDM` invocation implies a clean parse with the discriminant set. -/
theorem mainModel_run_elim {argv : List String} {fs : String → Option String}
    {args : RunDDMArgs} (h : mainModel argv fs = .run args) :
    ∃ st, parseLoop argv initPState [] = .ok st [] ∧
      st.input_specified = true ∧ loadAndRun fs st = .run args := by
  unfold mainModel at h
  cases hp : parseLoop argv initPState [] with
  | helpExit => rw [hp] at h; exact absurd h (by simp)
  | fatal m => rw [hp] at h; exact absurd h (by simp)
  | ok st ops =>
    rw [hp] at h
    by_cases ho : ops.isEmpty
    · have ho2 : ops = [] := by simpa using ho
      subst ho2
      by_cases hi : st.input_specified
      · simp only [List.isEmpty_nil, Bool.not_true, Bool.false_eq_true, if_false,
          hi, if_neg] at h
        exact ⟨st, rfl, hi, by simpa [hi] using h⟩
      · simp [hi] at h
    · simp [List.isEmpty_eq_false.mp (by simpa using ho)] at h

theorem loadAndRun_noQ {fs : String → Option String} {st : PState}
    (hq : fs st.params.q_file_name = none) :
    loadAndRun fs st = .exitFatal false msgNoQ := by
  unfold loadAndRun
  rw [hq]

theorem loadAndRun_noT {fs : String → Option String} {st : PState} {qc : String}
    (hq : fs st.params.q_file_name = some qc)
    (ht : fs st.params.t_file_name = none) :
    loadAndRun fs st = .exitFatal false msgNoT := by
  unfold loadAndRun
  rw [hq, ht]

theorem loadAndRun_noS {fs : String → Option String} {st : PState}
    {qc tc : String} (hq : fs st.params.q_file_name = some qc)
    (ht : fs st.params.t_file_name = some tc)
    (hs : fs st.params.s_file_name = none) :
    loadAndRun fs st = .exitFatal false msgNoS := by
  unfold loadAndRun
  rw [hq, ht, hs]

theorem loadAndRun_noE {fs : String → Option String} {st : PState}
    {qc tc sc : String} (hq : fs st.params.q_file_name = some qc)
    (ht : fs st.params.t_file_name = some tc)
    (hs : fs st.params.s_file_name = some sc)
    (he : fs st.params.e_file_name = none) :
    loadAndRun fs st = .exitFatal false msgNoE := by
  unfold loadAndRun
  rw [hq, ht, hs, he]

/-- A `runDDM` invocation implies all four series files opened, and the
arguments are assembled from their full contents. -/
theorem loadAndRun_run_elim {fs : String → Option String} {st : PState}
    {args : RunDDMArgs} (h : loadAndRun fs st = .run args) :
    ∃ qc tc sc ec, fs st.params.q_file_name = some qc ∧
      fs st.params.t_file_name = some tc ∧
      fs st.params.s_file_name = some sc ∧
      fs st.params.e_file_name = some ec ∧
      args = mkRunArgs st qc tc sc ec := by
  unfold loadAndRun at h
  cases hq : fs st.params.q_file_name with
  | none => rw [hq] at h; exact absurd h (by simp)
  | some qc =>
    rw [hq] at h
    cases ht : fs st.params.t_file_name with
    | none => rw [ht] at h; exact absurd h (by simp)
    | some tc =>
      rw [ht] at h
      cases hs : fs st.params.s_file_name with
      | none => rw [hs] at h; exact absurd h (by simp)
      | some sc =>
        rw [hs] at h
        cases he : fs st.params.e_file_name with
        | none => rw [he] at h; exact absurd h (by simp)
        | some ec =>
          rw [he] at h
          injection h with h2
          exact ⟨qc, tc, sc, ec, rfl, rfl, rfl, rfl, h2.symm⟩

/-- The only fatal outcomes of the load stage are the four open failures. -/
theorem loadAndRun_fatal_elim {fs : String → Option String} {st : PState}
    {b : Bool} {m : String} (h : loadAndRun fs st = .exitFatal b m) :
    b = false ∧ (m = msgNoQ ∨ m = msgNoT ∨ m = msgNoS ∨ m = msgNoE) := by
  unfold loadAndRun at h
  cases hq : fs st.params.q_file_name with
  | none =>
    rw [hq] at h
    injection h with h1 h2
    exact ⟨h1.symm, Or.inl h2.symm⟩
  | some qc =>
    rw [hq] at h
    cases ht : fs st.params.t_file_name with
    | none =>
      rw [ht] at h
      injection h with h1 h2
      exact ⟨h1.symm, Or.inr (Or.inl h2.symm)⟩
    | some tc =>
      rw [ht] at h
      cases hs : fs st.params.s_file_name with
      | none =>
        rw [hs] at h
        injection h with h1 h2
        exact ⟨h1.symm, Or.inr (Or.inr (Or.inl h2.symm))⟩
      | some sc =>
        rw [hs] at h
        cases he : fs st.params.e_file_name with
        | none =>
          rw [he] at h
          injection h with h1 h2
          exact ⟨h1.symm, Or.inr (Or.inr (Or.inr h2.symm))⟩
        | some ec =>
          rw [he] at h
          exact absurd h (by simp)

/-- Exhaustive characterization of the fatal messages of `main`. -/
theorem mainModel_fatal_elim {argv : List String} {fs : String → Option String}
    {b : Bool} {m : String} (h : mainModel argv fs = .exitFatal b m) :
    (b = false ∧ m = msgConflict) ∨ (b = true ∧ m = msgUnexpected) ∨
    (b = false ∧ m = msgNoInput) ∨
    (b = false ∧ (m = msgNoQ ∨ m = msgNoT ∨ m = msgNoS ∨ m = msgNoE)) := by
  unfold mainModel at h
  cases hp : parseLoop argv initPState [] with
  | helpExit => rw [hp] at h; exact absurd h (by simp)
  | fatal m2 =>
    rw [hp] at h
    injection h with h1 h2
    exact Or.inl ⟨h1.symm, by rw [← h2]; exact parseLoop_fatal hp⟩
  | ok st ops =>
    rw [hp] at h
    by_cases ho : ops.isEmpty
    · by_cases hi : st.input_specified
      · simp only [ho, Bool.not_true, Bool.false_eq_true, if_false, hi] at h
        exact Or.inr (Or.inr (Or.inr (loadAndRun_fatal_elim (by simpa [hi] using h))))
      · simp [ho, hi] at h
        tauto
    · simp [ho] at h
      tauto

/-! ## Outcome observations and concrete fixtures -/

/-- Whether `printHelp()` ran on this outcome's path. -/
def helpPrinted : MainOutcome → Bool
  | .exitHelp => true
  | .exitFatal b _ => b
  | .run _ => false

/-- Whether the process exits with a non-zero status (`return -1` or
`exit(EXIT_FAILURE)`); after a `runDDM` call `main` returns `0`. -/
def exitsNonzero : MainOutcome → Bool
  | .run _ => false
  | _ => true

/-- The `runDDM` arguments of an outcome, when the engine was invoked. -/
def runArgsOf : MainOutcome → Option RunDDMArgs
  | .run a => some a
  | _ => none

/-- The four series-file options of the end-to-end scenario of the spec. -/
def demoSeries : List String :=
  ["-Q", "q.txt", "-T", "t.txt", "-S", "s.txt", "-E", "e.txt"]

/-- Argument vector of the spec's end-to-end scenario. -/
def demoArgv : List String :=
  ["-o", "out.bin", "-N", "100", "-f", "video.mp4"] ++ demoSeries

/-- File contents of the spec's end-to-end scenario. -/
def demoFS : String → Option String := fun p =>
  if p = "q.txt" then some "0.1 0.2 0.3"
  else if p = "t.txt" then some "1\n2\n4\n8"
  else if p = "s.txt" then some "1 2"
  else if p = "e.txt" then some ""
  else none

/-- Same filesystem with the tau file missing. -/
def demoFSnoT : String → Option String := fun p =>
  if p = "t.txt" then none else demoFS p

/-- The state produced by parsing the demo argument vector. -/
def demoSt : PState :=
  match parseLoop demoArgv initPState [] with
  | .ok st _ => st
  | _ => initPState

/-- The state produced by parsing the no-input-source vector of C8. -/
def demoNoInputSt : PState :=
  match parseLoop (["-o", "out.bin", "-N", "100"] ++ demoSeries) initPState [] with
  | .ok st _ => st
  | _ => initPState

/-- The engine arguments produced by the demo scenario. -/
def demoArgs : RunDDMArgs :=
  match mainModel demoArgv demoFS with
  | .run a => a
  | _ => mkRunArgs initPState "" "" "" ""

/-! ## The claims -/

/-- C1 counterexample: the claim predicts a fatal error for every argument
vector with more than one of `-f`, `-W`, `-B`; but `-W -B` parses cleanly —
the `case 'B'` handler performs no `conditionAssert` — the series files are
opened and the engine runs with both webcam and benchmark mode set. -/
theorem c1_counterexample :
    (runArgsOf (mainModel (["-W", "-B"] ++ demoSeries) demoFS)).map
        (fun a => (a.use_webcam, a.benchmark_mode)) = some (true, true) ∧
      exitsNonzero (mainModel (["-W", "-B"] ++ demoSeries) demoFS) = false := by
  with_unfolding_all decide

/-- C1 (amended): only the `-f` and `-W` handlers assert on the input-source
discriminant; processing either with the discriminant already set aborts
fatally (before any file is read, since the loop never reaches the opens), so
a completed run never has an input file path and webcam mode simultaneously.
`-B` performs no check, so benchmark mode can accompany either. -/
theorem c1_source_conflict :
    (∀ (a : Option String) (st : PState), st.input_specified = true →
      applyOpt 'f' a st = .stop (.fatal msgConflict) ∧
        applyOpt 'W' a st = .stop (.fatal msgConflict)) ∧
    (∀ (argv : List String) (fs : String → Option String) (args : RunDDMArgs),
      mainModel argv fs = .run args →
        ¬(args.use_webcam = true ∧ args.file_in ≠ "")) := by
  constructor
  · intro a st hi
    exact applyOpt_conflict hi
  · intro argv fs args hrun
    obtain ⟨st, hp, hi, hload⟩ := mainModel_run_elim hrun
    obtain ⟨qc, tc, sc, ec, hq, ht, hs, he, hargs⟩ := loadAndRun_run_elim hload
    subst hargs
    have hinv : SrcInv st := parseLoop_inv srcInv_init hp
    exact hinv.2.2

/-- C1 witness: the amended statement applied at concrete inputs. -/
theorem c1_source_conflict_witness :
    applyOpt 'W' none (setFileIn "video.mp4" initPState) =
        .stop (.fatal msgConflict) ∧
      ¬(demoArgs.use_webcam = true ∧ demoArgs.file_in ≠ "") :=
  ⟨(c1_source_conflict.1 none (setFileIn "video.mp4" initPState)
      (by with_unfolding_all decide)).2,
    c1_source_conflict.2 demoArgv demoFS demoArgs (by with_unfolding_all decide)⟩

/-- C2: `-Z` flips `multi_stream` from its default `true` to `false`; no other
handler writes the field, so the engine receives `multistream = false` exactly
when a `-Z` was processed: in the end-to-end runs below, adding `-Z` yields
`false` and omitting it yields `true`. -/
theorem c2_multistream_toggle :
    initPState.params.multi_stream = true ∧
    (∀ (a : Option String) (st : PState),
      applyOpt 'Z' a st = .cont (setMultiOff st) ∧
        (setMultiOff st).params.multi_stream = false) ∧
    (∀ (c : Char) (a : Option String) (st st' : PState), c ≠ 'Z' →
      applyOpt c a st = .cont st' →
        st'.params.multi_stream = st.params.multi_stream) ∧
    (runArgsOf (mainModel (demoArgv ++ ["-Z"]) demoFS)).map
        (fun a => a.multistream) = some false ∧
    (runArgsOf (mainModel demoArgv demoFS)).map
        (fun a => a.multistream) = some true := by
  refine ⟨rfl, fun a st => ⟨applyOpt_Z a st, rfl⟩,
    fun c a st st' hc h => applyOpt_multi hc h, ?_, ?_⟩ <;>
    with_unfolding_all decide

/-- C2 witness: the preservation conjunct applied at a concrete non-`Z`
option. -/
theorem c2_multistream_toggle_witness :
    (setVerboseOn initPState).params.multi_stream =
      initPState.params.multi_stream :=
  c2_multistream_toggle.2.2.1 'v' none initPState (setVerboseOn initPState)
    (by with_unfolding_all decide) (by with_unfolding_all decide)

/-- C3: for a file laid out as `n` whitespace/newline-separated numeric tokens
(integer series and float series alike), the two passes agree: the fill pass
produces exactly the `n` token values in file order, and the counting pass —
which sizes the storage — returns exactly `n`.  Both passes are pure functions
of the file content, so re-reading the same content (as the fill pass does
after `clear()`/`seekg(0)`) yields an identical sequence. -/
theorem c3_loader_counts :
    (∀ ps : List (List Char × List Char),
      (∀ p ∈ ps, intTok p.1 = true ∧ p.2.all isWs = true) →
      sepOKb ps [] = true →
      fillInts (flatToks ps []) = ps.map (fun p => intTokVal p.1) ∧
        countInts (flatToks ps []) = ps.length) ∧
    (∀ ps : List (List Char × List Char),
      (∀ p ∈ ps, floatTok p.1 = true ∧ p.2.all isWs = true) →
      sepOKb ps [] = true →
      fillFloats (flatToks ps []) = ps.map (fun p => floatTokVal p.1) ∧
        countFloats (flatToks ps []) = ps.length) := by
  constructor
  · intro ps hmem hsep
    have hfill := fillInts_toks ps [] hmem hsep rfl
    exact ⟨hfill, by rw [countInts_eq_fill_length, hfill, List.length_map]⟩
  · intro ps hmem hsep
    have hfill := fillFloats_toks ps [] hmem hsep rfl
    exact ⟨hfill, by rw [countFloats_eq_fill_length, hfill, List.length_map]⟩

/-- C3 witness: the loader theorem applied to the concrete files `"1 23"`
(integers) and `"0.5"` (floats). -/
theorem c3_loader_counts_witness :
    fillInts (flatToks [("1".data, " ".data), ("23".data, [])] []) = [1, 23] ∧
    countInts (flatToks [("1".data, " ".data), ("23".data, [])] []) = 2 ∧
    fillFloats (flatToks [("0.5".data, [])] []) = [1 / 2] ∧
    countFloats (flatToks [("0.5".data, [])] []) = 1 := by
  have h1 := c3_loader_counts.1 [("1".data, " ".data), ("23".data, [])]
    (by decide) (by decide)
  have h2 := c3_loader_counts.2 [("0.5".data, [])] (by decide) (by decide)
  exact ⟨h1.1.trans (by decide), h1.2.trans (by decide),
    h2.1.trans (by with_unfolding_all decide), h2.2.trans (by decide)⟩

/-- C4: both passes stop at the first failing extraction: a file made of good
numeric tokens followed by any remainder on which extraction fails silently
yields exactly the prefix of good values (and the matching count) — no error
is reported.  An empty file yields a zero-length series in both passes. -/
theorem c4_truncation :
    (∀ (ps : List (List Char × List Char)) (tail : List Char),
      (∀ p ∈ ps, intTok p.1 = true ∧ p.2.all isWs = true) →
      sepOKb ps tail = true → readInt tail = none →
      fillInts (flatToks ps tail) = ps.map (fun p => intTokVal p.1) ∧
        countInts (flatToks ps tail) = ps.length) ∧
    (∀ (ps : List (List Char × List Char)) (tail : List Char),
      (∀ p ∈ ps, floatTok p.1 = true ∧ p.2.all isWs = true) →
      sepOKb ps tail = true → readFloat tail = none →
      fillFloats (flatToks ps tail) = ps.map (fun p => floatTokVal p.1) ∧
        countFloats (flatToks ps tail) = ps.length) ∧
    (fillInts [] = [] ∧ countInts [] = 0 ∧
      fillFloats [] = [] ∧ countFloats [] = 0) := by
  refine ⟨?_, ?_, by decide, by decide, by decide, by decide⟩
  · intro ps tail hmem hsep htail
    have hfill := fillInts_toks ps tail hmem hsep htail
    exact ⟨hfill, by rw [countInts_eq_fill_length, hfill, List.length_map]⟩
  · intro ps tail hmem hsep htail
    have hfill := fillFloats_toks ps tail hmem hsep htail
    exact ⟨hfill, by rw [countFloats_eq_fill_length, hfill, List.length_map]⟩

/-- C4 witness: the truncation theorem applied to the concrete file
`"5 abc 7"` (the loader yields `[5]` and never reports the bad token) and to
the all-bad float file `"x 1"` (empty series). -/
theorem c4_truncation_witness :
    readInt "abc 7".data = none ∧
    fillInts (flatToks [("5".data, " ".data)] "abc 7".data) = [5] ∧
    countInts (flatToks [("5".data, " ".data)] "abc 7".data) = 1 ∧
    fillFloats (flatToks [] "x 1".data) = [] := by
  have h1 := c4_truncation.1 [("5".data, " ".data)] "abc 7".data
    (by decide) (by decide) (by decide)
  have h2 := c4_truncation.2.1 [] "x 1".data (by decide) (by decide) (by decide)
  exact ⟨by decide, h1.1.trans (by decide), h1.2.trans (by decide),
    h2.1.trans (by decide)⟩

/-- C5: an unrecognized flag makes `getopt` return `'?'`, so `main` prints the
help text and returns `-1` (non-zero exit), and a leftover positional operand
makes `main` print the help text and abort fatally — in both situations the
engine is never invoked.  The closed conjuncts exercise both triggers. -/
theorem c5_trailing_unrecognized :
    (∀ (argv : List String) (fs : String → Option String),
      parseLoop argv initPState [] = .helpExit →
        mainModel argv fs = .exitHelp ∧
        helpPrinted (mainModel argv fs) = true ∧
        exitsNonzero (mainModel argv fs) = true ∧
        ∀ a, mainModel argv fs ≠ .run a) ∧
    (∀ (argv : List String) (fs : String → Option String) (st : PState)
        (ops : List String),
      parseLoop argv initPState [] = .ok st ops → ops ≠ [] →
        mainModel argv fs = .exitFatal true msgUnexpected ∧
        helpPrinted (mainModel argv fs) = true ∧
        exitsNonzero (mainModel argv fs) = true ∧
        ∀ a, mainModel argv fs ≠ .run a) ∧
    mainModel ["-Y"] demoFS = .exitHelp ∧
    mainModel (demoArgv ++ ["extra_token"]) demoFS =
      .exitFatal true msgUnexpected := by
  refine ⟨?_, ?_, ?_, ?_⟩
  · intro argv fs hp
    have h : mainModel argv fs = .exitHelp := mainModel_help hp
    exact ⟨h, by rw [h]; rfl, by rw [h]; rfl, fun a hc => by rw [h] at hc; cases hc⟩
  · intro argv fs st ops hp ho
    have h : mainModel argv fs = .exitFatal true msgUnexpected := mainModel_trailing hp ho
    exact ⟨h, by rw [h]; rfl, by rw [h]; rfl, fun a hc => by rw [h] at hc; cases hc⟩
  · with_unfolding_all decide
  · with_unfolding_all decide

/-- C5 witness: both universally quantified parts applied at concrete
vectors. -/
theorem c5_trailing_unrecognized_witness :
    mainModel ["-Y"] demoFSnoT = .exitHelp ∧
    mainModel ["-B", "stray"] demoFSnoT = .exitFatal true msgUnexpected :=
  ⟨(c5_trailing_unrecognized.1 ["-Y"] demoFSnoT
      (by with_unfolding_all decide)).1,
    (c5_trailing_unrecognized.2.1 ["-B", "stray"] demoFSnoT
      (setBenchmark initPState) ["stray"] (by with_unfolding_all decide)
      (by decide)).1⟩

/-- C6: the `-t` handler stores `1.0 + atoi(optarg)/100` (floats modelled as
exact rationals): `-t 20` stores `6/5 = 1.2` exactly, `-t 0` stores `1`, and
without `-t` the zero-initialized global keeps the default `1.2`. -/
theorem c6_tolerance :
    (∀ (v : String) (st : PState),
      applyOpt 't' (some v) st = .cont (setTolerance v st) ∧
        (setTolerance v st).params.q_tolerance = 1 + (atoi v : ℚ) / 100) ∧
    initPState.params.q_tolerance = 6 / 5 ∧
    (runArgsOf (mainModel (demoArgv ++ ["-t", "20"]) demoFS)).map
        (fun a => a.q_tolerance) = some (6 / 5) ∧
    (runArgsOf (mainModel (demoArgv ++ ["-t", "0"]) demoFS)).map
        (fun a => a.q_tolerance) = some 1 ∧
    (runArgsOf (mainModel demoArgv demoFS)).map
        (fun a => a.q_tolerance) = some (6 / 5) := by
  refine ⟨fun v st => ⟨applyOpt_t (some v) st, rfl⟩, rfl, ?_, ?_, ?_⟩ <;>
    with_unfolding_all decide

/-- C7: if any of the four series files cannot be opened, `main` aborts
fatally with the corresponding message and the engine is never invoked; the
engine is invoked (at its single call site) only when all four opens
succeeded, with the arguments assembled from the fully loaded series. -/
theorem c7_file_opens :
    (∀ (argv : List String) (fs : String → Option String) (st : PState),
      parseLoop argv initPState [] = .ok st [] → st.input_specified = true →
        (fs st.params.q_file_name = none →
          mainModel argv fs = .exitFatal false msgNoQ) ∧
        (∀ qc, fs st.params.q_file_name = some qc →
          fs st.params.t_file_name = none →
          mainModel argv fs = .exitFatal false msgNoT) ∧
        (∀ qc tc, fs st.params.q_file_name = some qc →
          fs st.params.t_file_name = some tc →
          fs st.params.s_file_name = none →
          mainModel argv fs = .exitFatal false msgNoS) ∧
        (∀ qc tc sc, fs st.params.q_file_name = some qc →
          fs st.params.t_file_name = some tc →
          fs st.params.s_file_name = some sc →
          fs st.params.e_file_name = none →
          mainModel argv fs = .exitFatal false msgNoE)) ∧
    (∀ (argv : List String) (fs : String → Option String) (args : RunDDMArgs),
      mainModel argv fs = .run args →
        ∃ st qc tc sc ec, parseLoop argv initPState [] = .ok st [] ∧
          st.input_specified = true ∧
          fs st.params.q_file_name = some qc ∧
          fs st.params.t_file_name = some tc ∧
          fs st.params.s_file_name = some sc ∧
          fs st.params.e_file_name = some ec ∧
          args = mkRunArgs st qc tc sc ec) := by
  constructor
  · intro argv fs st hp hi
    refine ⟨?_, ?_, ?_, ?_⟩
    · intro hq
      rw [mainModel_eq_load hp hi]
      exact loadAndRun_noQ hq
    · intro qc hq ht
      rw [mainModel_eq_load hp hi]
      exact loadAndRun_noT hq ht
    · intro qc tc hq ht hs
      rw [mainModel_eq_load hp hi]
      exact loadAndRun_noS hq ht hs
    · intro qc tc sc hq ht hs he
      rw [mainModel_eq_load hp hi]
      exact loadAndRun_noE hq ht hs he
  · intro argv fs args hrun
    obtain ⟨st, hp, hi, hload⟩ := mainModel_run_elim hrun
    obtain ⟨qc, tc, sc, ec, hq, ht, hs, he, hargs⟩ := loadAndRun_run_elim hload
    exact ⟨st, qc, tc, sc, ec, hp, hi, hq, ht, hs, he, hargs⟩

/-- C7 witness: the missing-tau-file scenario aborts with the tau message, and
the full demo scenario reaches the engine with all four series loaded. -/
theorem c7_file_opens_witness :
    mainModel demoArgv demoFSnoT = .exitFatal false msgNoT ∧
    demoArgs = mkRunArgs demoSt "0.1 0.2 0.3" "1\n2\n4\n8" "1 2" "" :=
  ⟨((c7_file_opens.1 demoArgv demoFSnoT demoSt (by with_unfolding_all decide)
        (by with_unfolding_all decide)).2.1 "0.1 0.2 0.3"
      (by with_unfolding_all decide) (by with_unfolding_all decide)),
    by
      obtain ⟨st, qc, tc, sc, ec, hp, hi, hq, ht, hs, he, hargs⟩ :=
        c7_file_opens.2 demoArgv demoFS demoArgs (by with_unfolding_all decide)
      have hst : st = demoSt := by
        have := hp
        unfold demoSt
        rw [show parseLoop demoArgv initPState [] = .ok st [] from hp]
      subst hst
      rw [hargs]
      have hqc : qc = "0.1 0.2 0.3" := by
        have h2 : demoFS demoSt.params.q_file_name = some "0.1 0.2 0.3" := by
          with_unfolding_all decide
        rw [hq] at h2
        simpa using h2
      have htc : tc = "1\n2\n4\n8" := by
        have h2 : demoFS demoSt.params.t_file_name = some "1\n2\n4\n8" := by
          with_unfolding_all decide
        rw [ht] at h2
        simpa using h2
      have hsc : sc = "1 2" := by
        have h2 : demoFS demoSt.params.s_file_name = some "1 2" := by
          with_unfolding_all decide
        rw [hs] at h2
        simpa using h2
      have hec : ec = "" := by
        have h2 : demoFS demoSt.params.e_file_name = some "" := by
          with_unfolding_all decide
        rw [he] at h2
        simpa using h2
      rw [hqc, htc, hsc, hec]⟩

/-- C8: `input_specified` is set exactly by the `-f`/`-W`/`-B` handlers, so a
vector containing none of them finishes parsing with the discriminant unset
and `main` aborts with `"Must specify input."` uniformly in the filesystem —
that is, before any series file is consulted.  The closed conjunct shows a
vector with every required option except an input source still aborts. -/
theorem c8_missing_input :
    (∀ (c : Char) (a : Option String) (st st' : PState),
      applyOpt c a st = .cont st' →
        st'.input_specified =
          (st.input_specified || (c = 'f' || c = 'W' || c = 'B'))) ∧
    (∀ (argv : List String) (fs : String → Option String) (st : PState),
      parseLoop argv initPState [] = .ok st [] → st.input_specified = false →
        mainModel argv fs = .exitFatal false msgNoInput) ∧
    (∀ fs : String → Option String,
      mainModel (["-o", "out.bin", "-N", "100"] ++ demoSeries) fs =
        .exitFatal false msgNoInput) := by
  refine ⟨fun c a st st' h => applyOpt_input h, ?_, ?_⟩
  · intro argv fs st hp hi
    exact mainModel_noinput hp hi
  · intro fs
    exact mainModel_noinput
      (show parseLoop (["-o", "out.bin", "-N", "100"] ++ demoSeries)
          initPState [] = .ok demoNoInputSt [] by with_unfolding_all decide)
      (by with_unfolding_all decide)

/-- C8 witness: both quantified parts applied at concrete inputs. -/
theorem c8_missing_input_witness :
    (setIndexFps initPState).input_specified =
        (initPState.input_specified ||
          (('I' : Char) = 'f' || ('I' : Char) = 'W' || ('I' : Char) = 'B')) ∧
    mainModel ["-v"] demoFS = .exitFatal false msgNoInput :=
  ⟨c8_missing_input.1 'I' none initPState (setIndexFps initPState)
      (by with_unfolding_all decide),
    c8_missing_input.2.1 ["-v"] demoFS (setVerboseOn initPState)
      (by with_unfolding_all decide) (by with_unfolding_all decide)⟩

/-- C9 counterexample: the claim says an index given with `-W` is taken from
the following token; but `getopt`'s optional argument is taken only when
attached to the flag, so in `-W 3` the `3` is not consumed as the index (the
webcam index stays `0`) — it remains a positional argument and the run aborts
with the trailing-argument error instead of proceeding. -/
theorem c9_counterexample :
    parseLoop ["-W", "3"] initPState [] =
        .ok (setWebcam none initPState) ["3"] ∧
    (setWebcam none initPState).params.webcam_idx = 0 ∧
    mainModel (["-W", "3"] ++ demoSeries) demoFS =
      .exitFatal true msgUnexpected := by
  with_unfolding_all decide

/-- C9 (amended): `-W` without an attached index keeps the default webcam
index `0` and sets the webcam flag; an index attached in the same argument
(`-W3`) is parsed with `atoi` and stored; a separate following token is not
consumed as the index and instead trips the trailing-argument fatal error. -/
theorem c9_webcam_index :
    (∀ st : PState, st.input_specified = false →
      applyOpt 'W' none st = .cont (setWebcam none st) ∧
        (setWebcam none st).params.webcam_idx = st.params.webcam_idx ∧
        (setWebcam none st).params.use_webcam = true) ∧
    (∀ (s : String) (st : PState), st.input_specified = false →
      applyOpt 'W' (some s) st = .cont (setWebcam (some s) st) ∧
        (setWebcam (some s) st).params.webcam_idx = atoi s ∧
        (setWebcam (some s) st).params.use_webcam = true) ∧
    (runArgsOf (mainModel (["-W3"] ++ demoSeries) demoFS)).map
        (fun a => (a.use_webcam, a.webcam_idx)) = some (true, 3) ∧
    (runArgsOf (mainModel (["-W"] ++ demoSeries) demoFS)).map
        (fun a => (a.use_webcam, a.webcam_idx)) = some (true, 0) ∧
    mainModel (["-W", "3"] ++ demoSeries) demoFS =
      .exitFatal true msgUnexpected := by
  refine ⟨fun st hi => ⟨applyOpt_W hi, rfl, rfl⟩,
    fun s st hi => ⟨applyOpt_W hi, rfl, rfl⟩, ?_, ?_, ?_⟩ <;>
    with_unfolding_all decide

/-- C9 witness: the amended statement applied at the initial state. -/
theorem c9_webcam_index_witness :
    applyOpt 'W' (some "3") initPState =
        .cont (setWebcam (some "3") initPState) ∧
      (setWebcam (some "3") initPState).params.webcam_idx = 3 :=
  ⟨(c9_webcam_index.2.1 "3" initPState (by with_unfolding_all decide)).1,
    ((c9_webcam_index.2.1 "3" initPState (by with_unfolding_all decide)).2.1).trans
      (by with_unfolding_all decide)⟩

/-- C10: `main` aborts fatally only for the seven `conditionAssert` triggers
(the `-f`/`-W` conflict, the trailing-argument error after help, the missing
input source, and the four file-open failures); no required-option check
exists, and with `-N` absent the zero-initialized global leaves
`frame_count = 0`, which is passed to the engine — the run still happens. -/
theorem c10_fatal_characterization :
    (∀ (argv : List String) (fs : String → Option String) (b : Bool)
        (m : String),
      mainModel argv fs = .exitFatal b m →
        (b = false ∧ m = msgConflict) ∨ (b = true ∧ m = msgUnexpected) ∨
        (b = false ∧ m = msgNoInput) ∨
        (b = false ∧ (m = msgNoQ ∨ m = msgNoT ∨ m = msgNoS ∨ m = msgNoE))) ∧
    initPState.params.frame_count = 0 ∧
    (runArgsOf (mainModel (["-o", "out.bin", "-f", "video.mp4"] ++ demoSeries)
          demoFS)).map
        (fun a => a.frame_count) = some 0 := by
  refine ⟨fun argv fs b m h => mainModel_fatal_elim h, rfl, ?_⟩
  with_unfolding_all decide

/-- C10 witness: the characterization applied at a concrete fatal run. -/
theorem c10_fatal_characterization_witness :
    (false = false ∧ msgNoInput = msgConflict) ∨
      (false = true ∧ msgNoInput = msgUnexpected) ∨
      (false = false ∧ msgNoInput = msgNoInput) ∨
      (false = false ∧ (msgNoInput = msgNoQ ∨ msgNoInput = msgNoT ∨
        msgNoInput = msgNoS ∨ msgNoInput = msgNoE)) :=
  c10_fatal_characterization.1 ["-v"] demoFS false msgNoInput
    (by with_unfolding_all decide)

end DDM
